import Mathlib

/-!
# simple-multithreader.h : a shallow embedding

The header offers two fork-join loops, `parallel_for` over a 1D range and
`parallel_for` over a 2D range.  Each validates its arguments, cuts the (outer)
range into `numThreads` chunks of `chunkSize` indices, starts one pthread per
chunk and joins them.

Conventions of the embedding.

* A C++ `int` is an `Int`.  Every arithmetic operation of the partitioning code
  is followed by a normaliser `w : Int → Int`; `w = wrap32` is the machine
  (wraparound modulo `2^32`), `w = id` is arithmetic over the integers.
* `/` on `int` truncates toward zero: `Int.tdiv`.
* `pthread_create` and `pthread_join` are oracles `Int → Int` from the worker
  index to the returned error code (`0` is success).
* The lambda is not a value of the model: a worker is the list of arguments it
  passes to the lambda, in order, and a call of `parallel_for` is the list of
  what the calling thread does (`Event`), in program order.
* The clock readings and the allocation of the two vectors are not modelled;
  the interleaving of the workers is not either: each worker is its own list.
-/

namespace SimpleMultithreader

/-! ## Machine integers -/

/-- Smallest `int`. -/
def INT_MIN : Int := -2147483648

/-- Largest `int`. -/
def INT_MAX : Int := 2147483647

/-- A value representable in a 32-bit signed `int`. -/
def inInt32 (x : Int) : Prop := INT_MIN ≤ x ∧ x ≤ INT_MAX

instance (x : Int) : Decidable (inInt32 x) := by
  unfold inInt32; exact inferInstance

/-- Wraparound of a mathematical integer to a signed 32-bit value (modulo `2^32`). -/
def wrap32 (x : Int) : Int := (x + 2147483648) % 4294967296 - 2147483648

/-! ## Thread arguments and worker bodies -/

/-- The `struct ThreadArgs1D` without the lambda. -/
structure ThreadArgs1D where
  low : Int
  high : Int
  deriving DecidableEq

/-- The `struct ThreadArgs2D` without the lambda. -/
structure ThreadArgs2D where
  low1 : Int
  high1 : Int
  low2 : Int
  high2 : Int
  deriving DecidableEq

/-- The worker `thread_1D`: `for (int i = low; i < high; ++i) lambda(i);` as the list of
lambda arguments.  `++i` cannot overflow: it runs only when `i < high`. -/
def thread_1D (low high : Int) : List Int :=
  if low < high then low :: thread_1D (low + 1) high else []
termination_by (high - low).toNat
decreasing_by omega

/-- Inner loop of `thread_2D`: `for (int j = low2; j < high2; ++j) lambda(i, j);`. -/
def thread_2D_inner (i low2 high2 : Int) : List (Int × Int) :=
  if low2 < high2 then (i, low2) :: thread_2D_inner i (low2 + 1) high2 else []
termination_by (high2 - low2).toNat
decreasing_by omega

/-- The worker `thread_2D`: the nested loops, as the list of lambda argument pairs. -/
def thread_2D (low1 high1 low2 high2 : Int) : List (Int × Int) :=
  if low1 < high1 then
    thread_2D_inner low1 low2 high2 ++ thread_2D (low1 + 1) high1 low2 high2
  else []
termination_by (high1 - low1).toNat
decreasing_by omega

/-! ## Partitioning arithmetic -/

/-- The lines `int range = high - low;` and
`int chunkSize = (range + numThreads - 1) / numThreads;`. -/
def chunkSize (w : Int → Int) (low high numThreads : Int) : Int :=
  let range := w (high - low)
  w (Int.tdiv (w (w (range + numThreads) - 1)) numThreads)

/-- The initialiser of `threadArgs[t]` in the 1D loop:
`low + t * chunkSize, std::min(low + (t + 1) * chunkSize, high), lambda`. -/
def threadArgs1D (w : Int → Int) (low high chunk t : Int) : ThreadArgs1D :=
  { low := w (low + w (t * chunk))
    high := min (w (low + w (w (t + 1) * chunk))) high }

/-- The initialiser of `threadArgs[t]` in the 2D loop:
`low1 + t * chunkSize1, std::min(low1 + (t + 1) * chunkSize1, high1), low2, high2, lambda`. -/
def threadArgs2D (w : Int → Int) (low1 high1 low2 high2 chunk t : Int) : ThreadArgs2D :=
  { low1 := w (low1 + w (t * chunk))
    high1 := min (w (low1 + w (w (t + 1) * chunk))) high1
    low2 := low2
    high2 := high2 }

/-- The exact (not yet wrapped) result of every arithmetic operation the
partitioning code performs for worker `t`, on its machine operands, in
evaluation order: `high - low`, `range + numThreads`, `… - 1`, `… / numThreads`,
`t * chunkSize`, `low + …`, `t + 1`, `(t + 1) * chunkSize`, `low + …`. -/
def partitionOps (low high numThreads t : Int) : List Int :=
  let range := wrap32 (high - low)
  let s1 := wrap32 (range + numThreads)
  let s2 := wrap32 (s1 - 1)
  let chunk := wrap32 (Int.tdiv s2 numThreads)
  let p1 := wrap32 (t * chunk)
  let t1 := wrap32 (t + 1)
  let p2 := wrap32 (t1 * chunk)
  [high - low, range + numThreads, s1 - 1, Int.tdiv s2 numThreads,
   t * chunk, low + p1, t + 1, t1 * chunk, low + p2]

/-! ## What the calling thread does -/

/-- One observable action of the thread that calls `parallel_for`; `A` is the
type of the thread arguments. -/
inductive Event (A : Type) where
  /-- The diagnostic `Error: Invalid input parameters for parallel_for` on `cerr`. -/
  | invalidParams : Event A
  /-- Success of `pthread_create` (it returned `0`) for worker `t`, started on `args`. -/
  | created (t : Int) (args : A) : Event A
  /-- The diagnostic `Error creating thread t: strerror(ret)` on `cerr`. -/
  | createError (t ret : Int) : Event A
  /-- A call of `pthread_join(threads[t], nullptr)`. -/
  | join (t : Int) : Event A
  /-- The diagnostic `Error joining thread t: strerror(ret)` on `cerr`. -/
  | joinError (t ret : Int) : Event A
  /-- The report `Execution Time (..): … seconds` on `cout`. -/
  | execTime : Event A
  deriving DecidableEq

/-- Clean-up after a failed creation: `for (int i = 0; i < t; ++i)
pthread_join(threads[i], nullptr);`, from `i` on.  The return value of the join
is dropped. -/
def cleanupJoins {A : Type} (t i : Int) : List (Event A) :=
  if i < t then Event.join i :: cleanupJoins t (i + 1) else []
termination_by (t - i).toNat
decreasing_by omega

/-- The creation loop `for (int t = 0; t < numThreads; ++t)`, from `t` on, over
an initialiser `mk` of `threadArgs[t]`.  The flag is `false` when the function
returned from inside the loop. -/
def createLoop {A : Type} (mk : Int → A) (pthread_create : Int → Int)
    (numThreads t : Int) : List (Event A) × Bool :=
  if t < numThreads then
    let ret := pthread_create t
    if ret ≠ 0 then
      (Event.createError t ret :: cleanupJoins t 0, false)
    else
      let rest := createLoop mk pthread_create numThreads (t + 1)
      (Event.created t (mk t) :: rest.1, rest.2)
  else ([], true)
termination_by (numThreads - t).toNat
decreasing_by omega

/-- The join loop `for (int t = 0; t < numThreads; ++t)`, from `t` on.  The flag
is `false` when the function returned from inside the loop. -/
def joinLoop {A : Type} (pthread_join : Int → Int) (numThreads t : Int) :
    List (Event A) × Bool :=
  if t < numThreads then
    let ret := pthread_join t
    if ret ≠ 0 then
      ([Event.join t, Event.joinError t ret], false)
    else
      let rest := joinLoop pthread_join numThreads (t + 1)
      (Event.join t :: rest.1, rest.2)
  else ([], true)
termination_by (numThreads - t).toNat
decreasing_by omega

/-- What follows the validation in both entry points: create, join, report. -/
def dispatch {A : Type} (mk : Int → A) (pthread_create pthread_join : Int → Int)
    (numThreads : Int) : List (Event A) :=
  let c := createLoop mk pthread_create numThreads 0
  if c.2 = false then c.1
  else
    let j := joinLoop pthread_join numThreads 0
    if j.2 = false then c.1 ++ j.1
    else c.1 ++ j.1 ++ [Event.execTime]

/-- The 1D `parallel_for(low, high, lambda, numThreads)`. -/
def parallel_for_1D (w : Int → Int) (pthread_create pthread_join : Int → Int)
    (low high numThreads : Int) : List (Event ThreadArgs1D) :=
  if numThreads ≤ 0 ∨ low ≥ high then [Event.invalidParams]
  else
    dispatch (threadArgs1D w low high (chunkSize w low high numThreads))
      pthread_create pthread_join numThreads

/-- The 2D `parallel_for(low1, high1, low2, high2, lambda, numThreads)`. -/
def parallel_for_2D (w : Int → Int) (pthread_create pthread_join : Int → Int)
    (low1 high1 low2 high2 numThreads : Int) : List (Event ThreadArgs2D) :=
  if numThreads ≤ 0 ∨ low1 ≥ high1 ∨ low2 ≥ high2 then [Event.invalidParams]
  else
    dispatch (threadArgs2D w low1 high1 low2 high2 (chunkSize w low1 high1 numThreads))
      pthread_create pthread_join numThreads

/-- The lambda calls of every started worker of a 1D call, one list per
`created` event, in order of creation. -/
def workerRuns1D (log : List (Event ThreadArgs1D)) : List (List Int) :=
  log.filterMap fun e =>
    match e with
    | Event.created _ a => some (thread_1D a.low a.high)
    | _ => none

/-- The lambda calls of every started worker of a 2D call, one list per
`created` event, in order of creation. -/
def workerRuns2D (log : List (Event ThreadArgs2D)) : List (List (Int × Int)) :=
  log.filterMap fun e =>
    match e with
    | Event.created _ a => some (thread_2D a.low1 a.high1 a.low2 a.high2)
    | _ => none

/-! ## Vocabulary of the specification -/

/-- The half-open interval `[a, b)` as the increasing list `a, a+1, …, b-1`. -/
def interval (a b : Int) : List Int :=
  (List.range (b - a).toNat).map fun (k : Nat) => a + (k : Int)

/-- The cross product `[a1, b1) × [a2, b2)` in lexicographic order, first
component slowest. -/
def grid (a1 b1 a2 b2 : Int) : List (Int × Int) :=
  (interval a1 b1).flatMap fun i => (interval a2 b2).map fun j => (i, j)

/-! ## Intervals, grids and the worker loops -/

theorem interval_of_ge {a b : Int} (h : b ≤ a) : interval a b = [] := by
  have : (b - a).toNat = 0 := by omega
  simp [interval, this]

theorem interval_cons {a b : Int} (h : a < b) : interval a b = a :: interval (a + 1) b := by
  have e : (b - a).toNat = (b - (a + 1)).toNat + 1 := by omega
  unfold interval
  rw [e, List.range_succ_eq_map]
  simp only [List.map_cons, List.map_map, Nat.cast_zero, add_zero, List.cons.injEq, true_and]
  apply List.map_congr_left
  intro k _
  simp only [Function.comp, Nat.succ_eq_add_one, Nat.cast_add, Nat.cast_one]
  ring

theorem interval_snoc {a b : Int} (h : a ≤ b) : interval a (b + 1) = interval a b ++ [b] := by
  have e : (b + 1 - a).toNat = (b - a).toNat + 1 := by omega
  unfold interval
  rw [e, List.range_succ, List.map_append]
  have : a + (((b - a).toNat : Nat) : Int) = b := by omega
  simp only [List.map_cons, List.map_nil, this]

theorem mem_interval {a b i : Int} : i ∈ interval a b ↔ a ≤ i ∧ i < b := by
  unfold interval
  simp only [List.mem_map, List.mem_range]
  constructor
  · rintro ⟨k, hk, rfl⟩
    omega
  · intro h
    exact ⟨(i - a).toNat, by omega, by omega⟩

theorem length_interval (a b : Int) : (interval a b).length = (b - a).toNat := by
  simp [interval]

theorem interval_append {a b c : Int} (hab : a ≤ b) (hbc : b ≤ c) :
    interval a b ++ interval b c = interval a c := by
  obtain ⟨n, hn⟩ : ∃ n : Nat, n = (b - a).toNat := ⟨_, rfl⟩
  induction n generalizing a with
  | zero =>
    have : a = b := by omega
    subst this
    simp [interval_of_ge]
  | succ n ih =>
    have h1 : a < b := by omega
    rw [interval_cons h1, interval_cons (by omega : a < c), List.cons_append,
      ih (by omega) (by omega)]

theorem interval_eq_nil_iff {a b : Int} : interval a b = [] ↔ b ≤ a := by
  rw [← List.length_eq_zero, length_interval]
  omega

theorem interval_single (a : Int) : interval a (a + 1) = [a] := by
  rw [interval_cons (by omega), interval_of_ge le_rfl]

theorem interval_pairwise (a b : Int) : (interval a b).Pairwise (· < ·) := by
  unfold interval
  rw [List.pairwise_map]
  exact (List.pairwise_lt_range _).imp fun h => by omega

theorem interval_nodup (a b : Int) : (interval a b).Nodup :=
  (interval_pairwise a b).imp fun h => ne_of_lt h

theorem count_interval (a b i : Int) :
    (interval a b).count i = if a ≤ i ∧ i < b then 1 else 0 := by
  rw [List.count_eq_of_nodup (interval_nodup a b)]
  simp only [mem_interval]

theorem thread_1D_eq_interval (low high : Int) : thread_1D low high = interval low high := by
  obtain ⟨n, hn⟩ : ∃ n : Nat, n = (high - low).toNat := ⟨_, rfl⟩
  induction n generalizing low with
  | zero =>
    rw [thread_1D, if_neg (by omega), interval_of_ge (by omega)]
  | succ n ih =>
    rw [thread_1D, if_pos (by omega), ih (low + 1) (by omega), ← interval_cons (by omega)]

theorem thread_2D_inner_eq (i low2 high2 : Int) :
    thread_2D_inner i low2 high2 = (interval low2 high2).map fun j => (i, j) := by
  obtain ⟨n, hn⟩ : ∃ n : Nat, n = (high2 - low2).toNat := ⟨_, rfl⟩
  induction n generalizing low2 with
  | zero =>
    rw [thread_2D_inner, if_neg (by omega), interval_of_ge (by omega)]
    rfl
  | succ n ih =>
    rw [thread_2D_inner, if_pos (by omega), ih (low2 + 1) (by omega),
      interval_cons (by omega : low2 < high2)]
    rfl

theorem thread_2D_eq_grid (low1 high1 low2 high2 : Int) :
    thread_2D low1 high1 low2 high2 = grid low1 high1 low2 high2 := by
  obtain ⟨n, hn⟩ : ∃ n : Nat, n = (high1 - low1).toNat := ⟨_, rfl⟩
  induction n generalizing low1 with
  | zero =>
    rw [thread_2D, if_neg (by omega), grid, interval_of_ge (by omega)]
    rfl
  | succ n ih =>
    rw [thread_2D, if_pos (by omega), ih (low1 + 1) (by omega), thread_2D_inner_eq,
      grid, grid, interval_cons (by omega : low1 < high1), List.flatMap_cons]

theorem grid_of_ge {a1 b1 : Int} (a2 b2 : Int) (h : b1 ≤ a1) : grid a1 b1 a2 b2 = [] := by
  simp [grid, interval_of_ge h]

theorem grid_append {a b c : Int} (a2 b2 : Int) (hab : a ≤ b) (hbc : b ≤ c) :
    grid a b a2 b2 ++ grid b c a2 b2 = grid a c a2 b2 := by
  simp only [grid, ← interval_append hab hbc, List.flatMap_append]

theorem length_grid (a1 b1 a2 b2 : Int) :
    (grid a1 b1 a2 b2).length = (b1 - a1).toNat * (b2 - a2).toNat := by
  unfold grid
  rw [← length_interval, ← length_interval]
  induction interval a1 b1 with
  | nil => simp
  | cons i l ih =>
    rw [List.flatMap_cons, List.length_append, ih, List.length_map, List.length_cons]
    ring

theorem mem_grid {a1 b1 a2 b2 : Int} {p : Int × Int} :
    p ∈ grid a1 b1 a2 b2 ↔ (a1 ≤ p.1 ∧ p.1 < b1) ∧ (a2 ≤ p.2 ∧ p.2 < b2) := by
  obtain ⟨i, j⟩ := p
  simp only [grid, List.mem_flatMap, List.mem_map, mem_interval, Prod.mk.injEq]
  constructor
  · rintro ⟨x, hx, y, hy, rfl, rfl⟩
    exact ⟨hx, hy⟩
  · rintro ⟨hx, hy⟩
    exact ⟨i, hx, j, hy, rfl, rfl⟩

theorem grid_nodup (a1 b1 a2 b2 : Int) : (grid a1 b1 a2 b2).Nodup := by
  unfold grid
  rw [List.nodup_flatMap]
  constructor
  · intro i _
    exact (interval_nodup a2 b2).map fun x y h => (Prod.mk.inj h).2
  · refine (interval_pairwise a1 b1).imp ?_
    intro x y hxy
    simp only [Function.onFun, List.disjoint_left, List.mem_map, not_exists, not_and]
    rintro p ⟨j, _, rfl⟩ k _ h
    have := (Prod.mk.inj h).1
    omega

/-! ## The loops of the calling thread -/

theorem cleanupJoins_eq {A : Type} (t i : Int) :
    (cleanupJoins t i : List (Event A)) = (interval i t).map Event.join := by
  obtain ⟨n, hn⟩ : ∃ n : Nat, n = (t - i).toNat := ⟨_, rfl⟩
  induction n generalizing i with
  | zero =>
    rw [cleanupJoins, if_neg (by omega), interval_of_ge (by omega)]
    rfl
  | succ n ih =>
    rw [cleanupJoins, if_pos (by omega), ih (i + 1) (by omega),
      interval_cons (by omega : i < t)]
    rfl

theorem createLoop_all_ok {A : Type} (mk : Int → A) (pc : Int → Int) (n t : Int)
    (hok : ∀ s, t ≤ s → s < n → pc s = 0) :
    createLoop mk pc n t = ((interval t n).map fun s => Event.created s (mk s), true) := by
  obtain ⟨k, hk⟩ : ∃ k : Nat, k = (n - t).toNat := ⟨_, rfl⟩
  induction k generalizing t with
  | zero =>
    rw [createLoop, if_neg (by omega), interval_of_ge (by omega)]
    rfl
  | succ k ih =>
    have h0 : pc t = 0 := hok t le_rfl (by omega)
    rw [createLoop, if_pos (by omega)]
    simp only [h0, ne_eq, not_true_eq_false, if_false]
    rw [ih (t + 1) (fun s h1 h2 => hok s (by omega) h2) (by omega),
      interval_cons (by omega : t < n)]
    rfl

theorem createLoop_first_fail {A : Type} (mk : Int → A) (pc : Int → Int) (n t f : Int)
    (htf : t ≤ f) (hfn : f < n) (hfail : pc f ≠ 0) (hok : ∀ s, t ≤ s → s < f → pc s = 0) :
    createLoop mk pc n t =
      (((interval t f).map fun s => Event.created s (mk s)) ++
        Event.createError f (pc f) :: (interval 0 f).map Event.join, false) := by
  obtain ⟨k, hk⟩ : ∃ k : Nat, k = (f - t).toNat := ⟨_, rfl⟩
  induction k generalizing t with
  | zero =>
    have : t = f := by omega
    subst this
    rw [createLoop, if_pos hfn]
    simp only [hfail, ne_eq, not_false_eq_true, if_true]
    rw [cleanupJoins_eq, interval_of_ge le_rfl]
    rfl
  | succ k ih =>
    have h0 : pc t = 0 := hok t le_rfl (by omega)
    rw [createLoop, if_pos (by omega)]
    simp only [h0, ne_eq, not_true_eq_false, if_false]
    rw [ih (t + 1) (by omega) (fun s h1 h2 => hok s (by omega) h2) (by omega),
      interval_cons (by omega : t < f)]
    rfl

theorem joinLoop_all_ok {A : Type} (pj : Int → Int) (n t : Int)
    (hok : ∀ s, t ≤ s → s < n → pj s = 0) :
    (joinLoop pj n t : List (Event A) × Bool) = ((interval t n).map Event.join, true) := by
  obtain ⟨k, hk⟩ : ∃ k : Nat, k = (n - t).toNat := ⟨_, rfl⟩
  induction k generalizing t with
  | zero =>
    rw [joinLoop, if_neg (by omega), interval_of_ge (by omega)]
    rfl
  | succ k ih =>
    have h0 : pj t = 0 := hok t le_rfl (by omega)
    rw [joinLoop, if_pos (by omega)]
    simp only [h0, ne_eq, not_true_eq_false, if_false]
    rw [ih (t + 1) (fun s h1 h2 => hok s (by omega) h2) (by omega),
      interval_cons (by omega : t < n)]
    rfl

theorem joinLoop_first_fail {A : Type} (pj : Int → Int) (n t f : Int)
    (htf : t ≤ f) (hfn : f < n) (hfail : pj f ≠ 0) (hok : ∀ s, t ≤ s → s < f → pj s = 0) :
    (joinLoop pj n t : List (Event A) × Bool) =
      ((interval t f).map Event.join ++ [Event.join f, Event.joinError f (pj f)], false) := by
  obtain ⟨k, hk⟩ : ∃ k : Nat, k = (f - t).toNat := ⟨_, rfl⟩
  induction k generalizing t with
  | zero =>
    have : t = f := by omega
    subst this
    rw [joinLoop, if_pos hfn]
    simp only [hfail, ne_eq, not_false_eq_true, if_true]
    rw [interval_of_ge le_rfl]
    rfl
  | succ k ih =>
    have h0 : pj t = 0 := hok t le_rfl (by omega)
    rw [joinLoop, if_pos (by omega)]
    simp only [h0, ne_eq, not_true_eq_false, if_false]
    rw [ih (t + 1) (by omega) (fun s h1 h2 => hok s (by omega) h2) (by omega),
      interval_cons (by omega : t < f)]
    rfl

theorem joinLoop_events {A : Type} (pj : Int → Int) (n t : Int) :
    ∀ e ∈ (joinLoop pj n t : List (Event A) × Bool).1, ∀ s a, e ≠ Event.created s a := by
  obtain ⟨k, hk⟩ : ∃ k : Nat, k = (n - t).toNat := ⟨_, rfl⟩
  induction k generalizing t with
  | zero =>
    rw [joinLoop, if_neg (by omega)]
    simp
  | succ k ih =>
    rw [joinLoop, if_pos (by omega)]
    by_cases h0 : pj t = 0
    · simp only [h0, ne_eq, not_true_eq_false, if_false, List.mem_cons]
      rintro e (rfl | he) s a
      · simp
      · exact ih (t + 1) (by omega) e he s a
    · simp only [h0, ne_eq, not_false_eq_true, if_true, List.mem_cons, List.mem_singleton,
        List.not_mem_nil, or_false]
      rintro e (rfl | rfl) s a <;> simp

theorem createLoop_no_invalid {A : Type} (mk : Int → A) (pc : Int → Int) (n t : Int) :
    Event.invalidParams ∉ (createLoop mk pc n t).1 := by
  obtain ⟨k, hk⟩ : ∃ k : Nat, k = (n - t).toNat := ⟨_, rfl⟩
  induction k generalizing t with
  | zero =>
    rw [createLoop, if_neg (by omega)]
    simp
  | succ k ih =>
    rw [createLoop, if_pos (by omega)]
    by_cases h0 : pc t = 0
    · simp only [h0, ne_eq, not_true_eq_false, if_false, List.mem_cons, not_or]
      exact ⟨by simp, ih (t + 1) (by omega)⟩
    · simp only [h0, ne_eq, not_false_eq_true, if_true, cleanupJoins_eq]
      simp

theorem joinLoop_no_invalid {A : Type} (pj : Int → Int) (n t : Int) :
    Event.invalidParams ∉ (joinLoop pj n t : List (Event A) × Bool).1 := by
  obtain ⟨k, hk⟩ : ∃ k : Nat, k = (n - t).toNat := ⟨_, rfl⟩
  induction k generalizing t with
  | zero =>
    rw [joinLoop, if_neg (by omega)]
    simp
  | succ k ih =>
    rw [joinLoop, if_pos (by omega)]
    by_cases h0 : pj t = 0
    · simp only [h0, ne_eq, not_true_eq_false, if_false, List.mem_cons, not_or]
      exact ⟨by simp, ih (t + 1) (by omega)⟩
    · simp [h0]

theorem createLoop_congr {A : Type} (mk mk2 : Int → A) (pc : Int → Int) (n t : Int)
    (ht : 0 ≤ t) (h : ∀ s, 0 ≤ s → s < n → mk s = mk2 s) :
    createLoop mk pc n t = createLoop mk2 pc n t := by
  obtain ⟨k, hk⟩ : ∃ k : Nat, k = (n - t).toNat := ⟨_, rfl⟩
  induction k generalizing t with
  | zero =>
    have hge : ¬ t < n := by omega
    rw [createLoop.eq_1 mk pc n t, createLoop.eq_1 mk2 pc n t, if_neg hge, if_neg hge]
  | succ k ih =>
    have hlt : t < n := by omega
    rw [createLoop.eq_1 mk pc n t, createLoop.eq_1 mk2 pc n t, if_pos hlt, if_pos hlt,
      ih (t + 1) (by omega) (by omega), h t ht hlt]

theorem dispatch_create_fail {A : Type} (mk : Int → A) (pc pj : Int → Int) (n f : Int)
    (hf0 : 0 ≤ f) (hfn : f < n) (hfail : pc f ≠ 0) (hok : ∀ s, 0 ≤ s → s < f → pc s = 0) :
    dispatch mk pc pj n =
      ((interval 0 f).map fun s => Event.created s (mk s)) ++
        Event.createError f (pc f) :: (interval 0 f).map Event.join := by
  simp [dispatch, createLoop_first_fail mk pc n 0 f hf0 hfn hfail hok]

theorem dispatch_join_fail {A : Type} (mk : Int → A) (pc pj : Int → Int) (n f : Int)
    (hc : ∀ s, 0 ≤ s → s < n → pc s = 0)
    (hf0 : 0 ≤ f) (hfn : f < n) (hfail : pj f ≠ 0) (hok : ∀ s, 0 ≤ s → s < f → pj s = 0) :
    dispatch mk pc pj n =
      ((interval 0 n).map fun s => Event.created s (mk s)) ++
        ((interval 0 f).map Event.join ++ [Event.join f, Event.joinError f (pj f)]) := by
  simp [dispatch, createLoop_all_ok mk pc n 0 hc,
    joinLoop_first_fail pj n 0 f hf0 hfn hfail hok]

theorem dispatch_all_ok {A : Type} (mk : Int → A) (pc pj : Int → Int) (n : Int)
    (hc : ∀ s, 0 ≤ s → s < n → pc s = 0) (hj : ∀ s, 0 ≤ s → s < n → pj s = 0) :
    dispatch mk pc pj n =
      ((interval 0 n).map fun s => Event.created s (mk s)) ++
        (interval 0 n).map Event.join ++ [Event.execTime] := by
  simp [dispatch, createLoop_all_ok mk pc n 0 hc, joinLoop_all_ok pj n 0 hj]

/-- Whatever the joins do, a call whose creations all succeed starts with the
`numThreads` creations and creates nothing afterwards. -/
theorem dispatch_created_of_all_ok {A : Type} (mk : Int → A) (pc pj : Int → Int) (n : Int)
    (hc : ∀ s, 0 ≤ s → s < n → pc s = 0) :
    ∃ js : List (Event A), (∀ e ∈ js, ∀ t a, e ≠ Event.created t a) ∧
      dispatch mk pc pj n = ((interval 0 n).map fun s => Event.created s (mk s)) ++ js := by
  have hj := joinLoop_events (A := A) pj n 0
  simp only [dispatch, createLoop_all_ok mk pc n 0 hc]
  by_cases h : (joinLoop (A := A) pj n 0).2 = false
  · exact ⟨(joinLoop pj n 0).1, hj, by simp [h]⟩
  · refine ⟨(joinLoop pj n 0).1 ++ [Event.execTime], ?_, by simp [h]⟩
    intro e he t a
    rcases List.mem_append.1 he with h1 | h1
    · exact hj e h1 t a
    · simp at h1; subst h1; simp

theorem dispatch_no_invalid {A : Type} (mk : Int → A) (pc pj : Int → Int) (n : Int) :
    Event.invalidParams ∉ dispatch mk pc pj n := by
  have h1 := createLoop_no_invalid mk pc n 0
  have h2 := joinLoop_no_invalid (A := A) pj n 0
  unfold dispatch
  simp only []
  split_ifs <;> simp [h1, h2]

theorem dispatch_congr {A : Type} (mk mk2 : Int → A) (pc pj : Int → Int) (n : Int)
    (h : ∀ s, 0 ≤ s → s < n → mk s = mk2 s) :
    dispatch mk pc pj n = dispatch mk2 pc pj n := by
  unfold dispatch
  rw [createLoop_congr mk mk2 pc n 0 le_rfl h]

theorem count_join_interval {A : Type} [DecidableEq A] (a b s : Int) :
    ((interval a b).map (Event.join : Int → Event A)).count (Event.join s) =
      if a ≤ s ∧ s < b then 1 else 0 := by
  have hinj : Function.Injective (Event.join : Int → Event A) := fun x y h => by
    injection h
  rw [List.count_map_of_injective _ _ hinj, count_interval]

theorem count_join_log {A : Type} [DecidableEq A] (mk : Int → A) (n t r s : Int) (ht : 0 ≤ t) :
    (((interval 0 n).map fun u => Event.created u (mk u)) ++
      ((interval 0 t).map Event.join ++ [Event.join t, Event.joinError t r])).count
        (Event.join s) = if 0 ≤ s ∧ s ≤ t then 1 else 0 := by
  have h0 : ((interval 0 n).map fun u => Event.created u (mk u)).count (Event.join s) = 0 := by
    apply List.count_eq_zero_of_not_mem
    simp
  rw [List.count_append, List.count_append, h0, count_join_interval]
  by_cases hst : s = t
  · subst hst
    simp [ht]
  · have h1 : (Event.join s : Event A) ≠ Event.join t := fun h => hst (by injection h)
    rw [List.count_cons_of_ne h1, List.count_cons_of_ne (by simp), List.count_nil]
    have : (s < t) ↔ (s ≤ t) := by omega
    simp [this]

/-! ## Partitioning over the integers -/

theorem chunkSize_id (low high n : Int) :
    chunkSize id low high n = Int.tdiv (high - low + n - 1) n := rfl

theorem chunkSize_id_spec {low high n : Int} (hlh : low < high) (hn : 0 < n) :
    1 ≤ chunkSize id low high n ∧ high - low ≤ n * chunkSize id low high n ∧
      n * (chunkSize id low high n - 1) < high - low := by
  rw [chunkSize_id, Int.tdiv_eq_ediv (by omega) (by omega)]
  have h1 := Int.ediv_add_emod (high - low + n - 1) n
  have h2 := Int.emod_lt_of_pos (high - low + n - 1) hn
  have h3 := Int.emod_nonneg (high - low + n - 1) (by omega : n ≠ 0)
  have h4 : n * ((high - low + n - 1) / n - 1) = n * ((high - low + n - 1) / n) - n := by ring
  refine ⟨?_, by omega, by omega⟩
  by_contra hlt
  have h5 : (high - low + n - 1) / n ≤ 0 := by omega
  have h6 : n * ((high - low + n - 1) / n) ≤ 0 :=
    mul_nonpos_of_nonneg_of_nonpos (by omega) h5
  omega

theorem threadArgs1D_id (low high chunk t : Int) :
    threadArgs1D id low high chunk t =
      { low := low + t * chunk, high := min (low + (t + 1) * chunk) high } := rfl

theorem threadArgs2D_id (low1 high1 low2 high2 chunk t : Int) :
    threadArgs2D id low1 high1 low2 high2 chunk t =
      { low1 := low1 + t * chunk, high1 := min (low1 + (t + 1) * chunk) high1,
        low2 := low2, high2 := high2 } := rfl

/-- Concatenating the runs of the first `k` chunks of `[low, high)` gives the run
over `[low, min (low + k * c) high)`, for any loop `run` that is empty on an
empty or inverted range and splits at any inner point. -/
theorem flatten_chunks {α : Type} (run : Int → Int → List α)
    (hE : ∀ a b, b ≤ a → run a b = [])
    (hA : ∀ a b c, a ≤ b → b ≤ c → run a b ++ run b c = run a c)
    (low high c : Int) (hc : 0 ≤ c) (k : Nat) :
    ((interval 0 k).map fun t => run (low + t * c) (min (low + (t + 1) * c) high)).flatten =
      run low (min (low + k * c) high) := by
  induction k with
  | zero =>
    simp only [Nat.cast_zero, interval_of_ge le_rfl, List.map_nil, List.flatten_nil, zero_mul,
      add_zero]
    rw [hE]
    exact min_le_left _ _
  | succ k ih =>
    have hk : (0 : Int) ≤ (k : Int) * c := mul_nonneg (by omega) hc
    have e : ((k + 1 : Nat) : Int) * c = (k : Int) * c + c := by push_cast; ring
    have e2 : ((k : Int) + 1) * c = (k : Int) * c + c := by ring
    rw [Nat.cast_succ, interval_snoc (by omega), List.map_append, List.flatten_append, ih]
    simp only [List.map_cons, List.map_nil, List.flatten_cons, List.flatten_nil,
      List.append_nil, e2]
    by_cases hle : low + (k : Int) * c ≤ high
    · rw [min_eq_left hle]
      apply hA
      · omega
      · exact le_min (by omega) hle
    · have h1 : min (low + (k : Int) * c) high = high := min_eq_right (by omega)
      have h2 : min (low + ((k : Int) * c + c)) high = high := min_eq_right (by omega)
      rw [h1, h2, hE (low + (k : Int) * c) high (by omega), List.append_nil]

theorem flatten_chunks_int {α : Type} (run : Int → Int → List α)
    (hE : ∀ a b, b ≤ a → run a b = [])
    (hA : ∀ a b c, a ≤ b → b ≤ c → run a b ++ run b c = run a c)
    (low high c : Int) (hc : 0 ≤ c) (k : Int) (hk : 0 ≤ k) :
    ((interval 0 k).map fun t => run (low + t * c) (min (low + (t + 1) * c) high)).flatten =
      run low (min (low + k * c) high) := by
  obtain ⟨m, rfl⟩ := Int.eq_ofNat_of_zero_le hk
  exact flatten_chunks run hE hA low high c hc m

/-! ## Lambda calls of the started workers -/

theorem workerRuns1D_append (l1 l2 : List (Event ThreadArgs1D)) :
    workerRuns1D (l1 ++ l2) = workerRuns1D l1 ++ workerRuns1D l2 := by
  simp [workerRuns1D, List.filterMap_append]

theorem workerRuns1D_created (mk : Int → ThreadArgs1D) (l : List Int) :
    workerRuns1D (l.map fun s => Event.created s (mk s)) =
      l.map fun s => interval (mk s).low (mk s).high := by
  induction l with
  | nil => rfl
  | cons s l ih =>
    rw [List.map_cons, List.map_cons, ← ih]
    simp [workerRuns1D, thread_1D_eq_interval]

theorem workerRuns1D_other (l : List (Event ThreadArgs1D))
    (h : ∀ e ∈ l, ∀ t a, e ≠ Event.created t a) : workerRuns1D l = [] := by
  induction l with
  | nil => rfl
  | cons e l ih =>
    have h1 := ih fun e he => h e (List.mem_cons_of_mem _ he)
    have h2 := h e (List.mem_cons_self _ _)
    cases e with
    | created t a => exact absurd rfl (h2 t a)
    | _ => simpa [workerRuns1D] using h1

theorem workerRuns2D_append (l1 l2 : List (Event ThreadArgs2D)) :
    workerRuns2D (l1 ++ l2) = workerRuns2D l1 ++ workerRuns2D l2 := by
  simp [workerRuns2D, List.filterMap_append]

theorem workerRuns2D_created (mk : Int → ThreadArgs2D) (l : List Int) :
    workerRuns2D (l.map fun s => Event.created s (mk s)) =
      l.map fun s => grid (mk s).low1 (mk s).high1 (mk s).low2 (mk s).high2 := by
  induction l with
  | nil => rfl
  | cons s l ih =>
    rw [List.map_cons, List.map_cons, ← ih]
    simp [workerRuns2D, thread_2D_eq_grid]

theorem workerRuns2D_other (l : List (Event ThreadArgs2D))
    (h : ∀ e ∈ l, ∀ t a, e ≠ Event.created t a) : workerRuns2D l = [] := by
  induction l with
  | nil => rfl
  | cons e l ih =>
    have h1 := ih fun e he => h e (List.mem_cons_of_mem _ he)
    have h2 := h e (List.mem_cons_self _ _)
    cases e with
    | created t a => exact absurd rfl (h2 t a)
    | _ => simpa [workerRuns2D] using h1

/-- The workers of a 1D call whose creations all succeed. -/
theorem workerRuns1D_all_ok (pc pj : Int → Int) (low high n : Int)
    (hlh : low < high) (hn : 0 < n) (hc : ∀ t, 0 ≤ t → t < n → pc t = 0) :
    workerRuns1D (parallel_for_1D id pc pj low high n) =
      (interval 0 n).map fun t =>
        interval (low + t * chunkSize id low high n)
          (min (low + (t + 1) * chunkSize id low high n) high) := by
  rw [parallel_for_1D, if_neg (by omega)]
  obtain ⟨js, hjs, e⟩ := dispatch_created_of_all_ok
    (threadArgs1D id low high (chunkSize id low high n)) pc pj n hc
  rw [e, workerRuns1D_append, workerRuns1D_created, workerRuns1D_other js hjs, List.append_nil]
  rfl

/-- The workers of a 2D call whose creations all succeed. -/
theorem workerRuns2D_all_ok (pc pj : Int → Int) (low1 high1 low2 high2 n : Int)
    (h1 : low1 < high1) (h2 : low2 < high2) (hn : 0 < n)
    (hc : ∀ t, 0 ≤ t → t < n → pc t = 0) :
    workerRuns2D (parallel_for_2D id pc pj low1 high1 low2 high2 n) =
      (interval 0 n).map fun t =>
        grid (low1 + t * chunkSize id low1 high1 n)
          (min (low1 + (t + 1) * chunkSize id low1 high1 n) high1) low2 high2 := by
  rw [parallel_for_2D, if_neg (by omega)]
  obtain ⟨js, hjs, e⟩ := dispatch_created_of_all_ok
    (threadArgs2D id low1 high1 low2 high2 (chunkSize id low1 high1 n)) pc pj n hc
  rw [e, workerRuns2D_append, workerRuns2D_created, workerRuns2D_other js hjs, List.append_nil]
  rfl

/-! ## Machine arithmetic -/

theorem wrap32_of_inInt32 {x : Int} (h : inInt32 x) : wrap32 x = x := by
  unfold inInt32 INT_MIN INT_MAX at h
  unfold wrap32
  omega

theorem wrap32_inInt32 (x : Int) : inInt32 (wrap32 x) := by
  unfold inInt32 INT_MIN INT_MAX wrap32
  omega

/-- The increment `++i` of the worker loops runs only below a 32-bit bound, so it
stays a 32-bit value. -/
theorem loop_increment_inInt32 {i high : Int} (hi : inInt32 i) (hh : inInt32 high)
    (h : i < high) : wrap32 (i + 1) = i + 1 := by
  apply wrap32_of_inInt32
  unfold inInt32 INT_MIN INT_MAX at *
  omega

/-- Truncating division by a positive divisor stays between `0` and the dividend. -/
theorem tdiv_between {a n : Int} (hn : 0 < n) :
    (0 ≤ a → 0 ≤ Int.tdiv a n ∧ Int.tdiv a n ≤ a) ∧
    (a ≤ 0 → a ≤ Int.tdiv a n ∧ Int.tdiv a n ≤ 0) := by
  have key : ∀ b : Int, 0 ≤ b → 0 ≤ Int.tdiv b n ∧ Int.tdiv b n ≤ b := by
    intro b hb
    rw [Int.tdiv_eq_ediv hb (by omega)]
    exact ⟨Int.ediv_nonneg hb (by omega), Int.ediv_le_self _ hb⟩
  refine ⟨key a, fun ha => ?_⟩
  have h := key (-a) (by omega)
  rw [Int.neg_tdiv] at h
  omega

theorem tdiv_nonpos_of_lt {a n : Int} (hn : 0 < n) (h : a < n) : Int.tdiv a n ≤ 0 := by
  by_cases ha : 0 ≤ a
  · rw [Int.tdiv_eq_ediv ha (by omega), Int.ediv_eq_zero_of_lt ha h]
  · exact ((tdiv_between hn).2 (by omega)).2

/-- The sum `range + numThreads - 1` as the machine computes it. -/
theorem wrapped_numerator {low high n : Int} (hl : inInt32 low) (hh : inInt32 high)
    (hN : inInt32 n) (hlh : low < high) (hn : 0 < n) :
    (high - low + n - 1 ≤ INT_MAX →
      wrap32 (wrap32 (wrap32 (high - low) + n) - 1) = high - low + n - 1) ∧
    (INT_MAX < high - low + n - 1 →
      wrap32 (wrap32 (wrap32 (high - low) + n) - 1) < n) := by
  unfold inInt32 INT_MIN INT_MAX at *
  unfold wrap32
  constructor <;> intro h <;> omega

theorem chunkSize_wrap32_eq {low high n : Int} (hl : inInt32 low) (hh : inInt32 high)
    (hN : inInt32 n) (hlh : low < high) (hn : 0 < n) (hb : high - low + n - 1 ≤ INT_MAX) :
    chunkSize wrap32 low high n = chunkSize id low high n := by
  have h1 := (wrapped_numerator hl hh hN hlh hn).1 hb
  have h2 := (tdiv_between (a := high - low + n - 1) hn).1 (by omega)
  unfold chunkSize
  simp only [h1, id]
  apply wrap32_of_inInt32
  unfold inInt32 INT_MIN INT_MAX at *
  omega

theorem chunkSize_wrap32_nonpos {low high n : Int} (hl : inInt32 low) (hh : inInt32 high)
    (hN : inInt32 n) (hlh : low < high) (hn : 0 < n) (hb : INT_MAX < high - low + n - 1) :
    chunkSize wrap32 low high n ≤ 0 := by
  have h1 := (wrapped_numerator hl hh hN hlh hn).2 hb
  have h2 := wrap32_inInt32 (wrap32 (wrap32 (high - low) + n) - 1)
  have h3 := tdiv_nonpos_of_lt hn h1
  have h4 := tdiv_between (a := wrap32 (wrap32 (wrap32 (high - low) + n) - 1)) hn
  unfold chunkSize
  simp only []
  generalize wrap32 (wrap32 (wrap32 (high - low) + n) - 1) = s at *
  rw [wrap32_of_inInt32]
  · exact h3
  · unfold inInt32 INT_MIN INT_MAX at *
    omega

theorem ceil_eq_chunkSize_id {low high n : Int} (hlh : low < high) (hn : 0 < n) :
    ⌈((high - low : Int) : ℚ) / ((n : Int) : ℚ)⌉ = chunkSize id low high n := by
  obtain ⟨-, h2, h3⟩ := chunkSize_id_spec hlh hn
  generalize chunkSize id low high n = c at h2 h3
  have hq : (0 : ℚ) < (n : ℚ) := by exact_mod_cast hn
  rw [Int.ceil_eq_iff]
  constructor
  · rw [lt_div_iff₀ hq]
    have : ((n * (c - 1) : Int) : ℚ) < ((high - low : Int) : ℚ) := by exact_mod_cast h3
    push_cast at this ⊢
    linarith
  · rw [div_le_iff₀ hq]
    have : ((high - low : Int) : ℚ) ≤ ((n * c : Int) : ℚ) := by exact_mod_cast h2
    push_cast at this ⊢
    linarith

/-- The list `partitionOps` follows the code: wrapping its fourth entry gives the
`chunkSize` of the machine, wrapping its sixth and ninth entries gives the bounds
of worker `t`. -/
theorem partitionOps_results (low high n t : Int) :
    ∃ a b c d e f g h i, partitionOps low high n t = [a, b, c, d, e, f, g, h, i] ∧
      chunkSize wrap32 low high n = wrap32 d ∧
      threadArgs1D wrap32 low high (chunkSize wrap32 low high n) t =
        ⟨wrap32 f, min (wrap32 i) high⟩ :=
  ⟨_, _, _, _, _, _, _, _, _, rfl, rfl, rfl⟩

/-- Under the two bounds of C10: the mathematical values of the partitioning are
representable, the machine computes them, and `partitionOps` lists them, but for
the inner sum `range + numThreads` and the decrement that follows it. -/
theorem partitionOps_eq {low high n t : Int} (hl : inInt32 low) (hh : inInt32 high)
    (hN : inInt32 n) (hlh : low < high) (hn : 0 < n)
    (hb1 : high - low + n - 1 ≤ INT_MAX) (hb2 : high + n - 1 ≤ INT_MAX)
    (ht0 : 0 ≤ t) (htn : t < n) :
    (inInt32 (high - low) ∧ inInt32 (high - low + n - 1) ∧
      inInt32 (chunkSize id low high n) ∧
      inInt32 (t * chunkSize id low high n) ∧
      inInt32 (low + t * chunkSize id low high n) ∧
      inInt32 (t + 1) ∧
      inInt32 ((t + 1) * chunkSize id low high n) ∧
      inInt32 (low + (t + 1) * chunkSize id low high n)) ∧
    partitionOps low high n t =
      [high - low, high - low + n, wrap32 (high - low + n) - 1, chunkSize id low high n,
       t * chunkSize id low high n, low + t * chunkSize id low high n, t + 1,
       (t + 1) * chunkSize id low high n, low + (t + 1) * chunkSize id low high n] := by
  obtain ⟨hc1, hc2, hc3⟩ := chunkSize_id_spec hlh hn
  have hnum := (wrapped_numerator hl hh hN hlh hn).1 hb1
  have hcd : chunkSize id low high n = Int.tdiv (high - low + n - 1) n := rfl
  have hle := ((tdiv_between (a := high - low + n - 1) hn).1 (by omega)).2
  rw [← hcd] at hle
  have e0 : n * (chunkSize id low high n - 1) = n * chunkSize id low high n - n := by ring
  have e1 : (t + 1) * chunkSize id low high n =
      t * chunkSize id low high n + chunkSize id low high n := by ring
  have m0 : 0 ≤ t * chunkSize id low high n := mul_nonneg ht0 (by omega)
  have m1 : (t + 1) * chunkSize id low high n ≤ n * chunkSize id low high n :=
    mul_le_mul_of_nonneg_right (by omega) (by omega)
  have r1 : inInt32 (high - low) := by
    unfold inInt32 INT_MIN INT_MAX at *; omega
  have r1b : inInt32 (high - low + n - 1) := by
    unfold inInt32 INT_MIN INT_MAX at *; omega
  have r2 : inInt32 (chunkSize id low high n) := by
    unfold inInt32 INT_MIN INT_MAX at *; omega
  have r3 : inInt32 (t * chunkSize id low high n) := by
    unfold inInt32 INT_MIN INT_MAX at *; omega
  have r4 : inInt32 (low + t * chunkSize id low high n) := by
    unfold inInt32 INT_MIN INT_MAX at *; omega
  have r5 : inInt32 (t + 1) := by
    unfold inInt32 INT_MIN INT_MAX at *; omega
  have r6 : inInt32 ((t + 1) * chunkSize id low high n) := by
    unfold inInt32 INT_MIN INT_MAX at *; omega
  have r7 : inInt32 (low + (t + 1) * chunkSize id low high n) := by
    unfold inInt32 INT_MIN INT_MAX at *; omega
  rw [wrap32_of_inInt32 r1] at hnum
  have hq : wrap32 (Int.tdiv (high - low + n - 1) n) = chunkSize id low high n := by
    rw [← hcd, wrap32_of_inInt32 r2]
  refine ⟨⟨r1, r1b, r2, r3, r4, r5, r6, r7⟩, ?_⟩
  unfold partitionOps
  simp only [wrap32_of_inInt32 r1, hnum, hq, wrap32_of_inInt32 r3, wrap32_of_inInt32 r5,
    wrap32_of_inInt32 r6]
  rfl

/-- Under the two bounds of C10 the machine gives worker `t` the bounds computed
over the integers, in 1D and in 2D. -/
theorem threadArgs_wrap32_eq {low high n t : Int} (low2 high2 : Int) (hl : inInt32 low)
    (hh : inInt32 high) (hN : inInt32 n) (hlh : low < high) (hn : 0 < n)
    (hb1 : high - low + n - 1 ≤ INT_MAX) (hb2 : high + n - 1 ≤ INT_MAX)
    (ht0 : 0 ≤ t) (htn : t < n) :
    threadArgs1D wrap32 low high (chunkSize wrap32 low high n) t =
      threadArgs1D id low high (chunkSize id low high n) t ∧
    threadArgs2D wrap32 low high low2 high2 (chunkSize wrap32 low high n) t =
      threadArgs2D id low high low2 high2 (chunkSize id low high n) t := by
  obtain ⟨⟨-, -, -, r3, r4, r5, r6, r7⟩, -⟩ :=
    partitionOps_eq hl hh hN hlh hn hb1 hb2 ht0 htn
  rw [chunkSize_wrap32_eq hl hh hN hlh hn hb1]
  constructor
  · simp only [threadArgs1D, id, wrap32_of_inInt32 r3, wrap32_of_inInt32 r4,
      wrap32_of_inInt32 r5, wrap32_of_inInt32 r6, wrap32_of_inInt32 r7]
  · simp only [threadArgs2D, id, wrap32_of_inInt32 r3, wrap32_of_inInt32 r4,
      wrap32_of_inInt32 r5, wrap32_of_inInt32 r6, wrap32_of_inInt32 r7]

/-- Within the two bounds of C10 the machine and the integers make the same 1D
call, so what is proved of `parallel_for_1D id` holds of the compiled code. -/
theorem parallel_for_1D_wrap32_eq (pc pj : Int → Int) {low high n : Int}
    (hl : inInt32 low) (hh : inInt32 high) (hN : inInt32 n)
    (hb1 : high - low + n - 1 ≤ INT_MAX) (hb2 : high + n - 1 ≤ INT_MAX) :
    parallel_for_1D wrap32 pc pj low high n = parallel_for_1D id pc pj low high n := by
  unfold parallel_for_1D
  by_cases hv : n ≤ 0 ∨ low ≥ high
  · rw [if_pos hv, if_pos hv]
  · rw [if_neg hv, if_neg hv]
    exact dispatch_congr _ _ _ _ _ fun s h0 h1 =>
      (threadArgs_wrap32_eq 0 0 hl hh hN (by omega) (by omega) hb1 hb2 h0 h1).1

/-- Within the two bounds of C10, on the outer range, the machine and the
integers make the same 2D call. -/
theorem parallel_for_2D_wrap32_eq (pc pj : Int → Int) {low1 high1 n : Int} (low2 high2 : Int)
    (hl : inInt32 low1) (hh : inInt32 high1) (hN : inInt32 n)
    (hb1 : high1 - low1 + n - 1 ≤ INT_MAX) (hb2 : high1 + n - 1 ≤ INT_MAX) :
    parallel_for_2D wrap32 pc pj low1 high1 low2 high2 n =
      parallel_for_2D id pc pj low1 high1 low2 high2 n := by
  unfold parallel_for_2D
  by_cases hv : n ≤ 0 ∨ low1 ≥ high1 ∨ low2 ≥ high2
  · rw [if_pos hv, if_pos hv]
  · rw [if_neg hv, if_neg hv]
    exact dispatch_congr _ _ _ _ _ fun s h0 h1 =>
      (threadArgs_wrap32_eq low2 high2 hl hh hN (by omega) (by omega) hb1 hb2 h0 h1).2

/-! ## The integer model of a failed creation and of the sub-range bounds -/

/-- Over the integers: what a 1D call does, and what its workers call, when the
creation of worker `t` is the first to fail. -/
theorem creation_failure_id (pthread_create pthread_join : Int → Int)
    (low high numThreads t : Int) (hlh : low < high) (hn : 0 < numThreads)
    (ht0 : 0 ≤ t) (htn : t < numThreads) (hfail : pthread_create t ≠ 0)
    (hok : ∀ s, 0 ≤ s → s < t → pthread_create s = 0) :
    parallel_for_1D id pthread_create pthread_join low high numThreads =
      ((interval 0 t).map fun s =>
          Event.created s (threadArgs1D id low high (chunkSize id low high numThreads) s)) ++
        Event.createError t (pthread_create t) :: (interval 0 t).map Event.join ∧
    workerRuns1D (parallel_for_1D id pthread_create pthread_join low high numThreads) =
      ((interval 0 t).map fun s =>
        thread_1D (threadArgs1D id low high (chunkSize id low high numThreads) s).low
          (threadArgs1D id low high (chunkSize id low high numThreads) s).high) ∧
    (workerRuns1D (parallel_for_1D id pthread_create pthread_join low high
      numThreads)).flatten =
        interval low (min (low + t * chunkSize id low high numThreads) high) ∧
    (∀ i, (workerRuns1D (parallel_for_1D id pthread_create pthread_join low high
      numThreads)).flatten.count i =
        if low ≤ i ∧ i < min (low + t * chunkSize id low high numThreads) high
        then 1 else 0) ∧
    (∀ s i, t ≤ s → s < numThreads →
      (threadArgs1D id low high (chunkSize id low high numThreads) s).low ≤ i →
      i < (threadArgs1D id low high (chunkSize id low high numThreads) s).high →
      i ∉ (workerRuns1D (parallel_for_1D id pthread_create pthread_join low high
        numThreads)).flatten) := by
  obtain ⟨hc1, hc2, -⟩ := chunkSize_id_spec hlh hn
  have hlog : parallel_for_1D id pthread_create pthread_join low high numThreads =
      ((interval 0 t).map fun s =>
          Event.created s (threadArgs1D id low high (chunkSize id low high numThreads) s)) ++
        Event.createError t (pthread_create t) :: (interval 0 t).map Event.join := by
    rw [parallel_for_1D, if_neg (by omega),
      dispatch_create_fail _ _ _ _ _ ht0 htn hfail hok]
  have hruns : workerRuns1D (parallel_for_1D id pthread_create pthread_join low high
      numThreads) = (interval 0 t).map fun s =>
        interval (low + s * chunkSize id low high numThreads)
          (min (low + (s + 1) * chunkSize id low high numThreads) high) := by
    rw [hlog, workerRuns1D_append, workerRuns1D_created, workerRuns1D_other, List.append_nil]
    · rfl
    · intro e he
      rw [List.mem_cons, List.mem_map] at he
      rcases he with rfl | ⟨s, -, rfl⟩ <;> simp
  have hflat : (workerRuns1D (parallel_for_1D id pthread_create pthread_join low high
      numThreads)).flatten =
        interval low (min (low + t * chunkSize id low high numThreads) high) := by
    rw [hruns, flatten_chunks_int interval (fun a b h => interval_of_ge h)
      (fun a b c h1 h2 => interval_append h1 h2) low high _ (by omega) t ht0]
  refine ⟨hlog, ?_, hflat, ?_, ?_⟩
  · rw [hruns]
    simp only [thread_1D_eq_interval, threadArgs1D_id]
  · intro i
    rw [hflat, count_interval]
  · intro s i hts _ hlo _
    rw [hflat, mem_interval]
    rintro ⟨-, hi⟩
    have h3 := lt_of_lt_of_le hi (min_le_left _ _)
    have h4 : t * chunkSize id low high numThreads ≤ s * chunkSize id low high numThreads :=
      mul_le_mul_of_nonneg_right hts (by omega)
    have h5 : low + s * chunkSize id low high numThreads ≤ i := hlo
    omega

/-- Over the integers: how the bounds of worker `t` lie to each other, to `high`
and to the lower bound of worker `t + 1`. -/
theorem subrange_shape_id (low high numThreads : Int) (hlh : low < high) (hn : 0 < numThreads)
    (low2 high2 t : Int) :
    (threadArgs1D id low high (chunkSize id low high numThreads) t).high =
      min (threadArgs1D id low high (chunkSize id low high numThreads) (t + 1)).low high ∧
    (threadArgs1D id low high (chunkSize id low high numThreads) t).high ≤
      (threadArgs1D id low high (chunkSize id low high numThreads) (t + 1)).low ∧
    ((threadArgs1D id low high (chunkSize id low high numThreads) t).low ≤
        (threadArgs1D id low high (chunkSize id low high numThreads) t).high ↔
      (threadArgs1D id low high (chunkSize id low high numThreads) t).low ≤ high) ∧
    (high < (threadArgs1D id low high (chunkSize id low high numThreads) t).low →
      (threadArgs1D id low high (chunkSize id low high numThreads) t).high = high) ∧
    (thread_1D (threadArgs1D id low high (chunkSize id low high numThreads) t).low
        (threadArgs1D id low high (chunkSize id low high numThreads) t).high = [] ↔
      (threadArgs1D id low high (chunkSize id low high numThreads) t).high ≤
        (threadArgs1D id low high (chunkSize id low high numThreads) t).low) ∧
    ((threadArgs1D id low high (chunkSize id low high numThreads) t).high =
        (threadArgs1D id low high (chunkSize id low high numThreads) (t + 1)).low ↔
      (threadArgs1D id low high (chunkSize id low high numThreads) (t + 1)).low ≤ high) ∧
    (threadArgs2D id low high low2 high2 (chunkSize id low high numThreads) t).low1 =
      (threadArgs1D id low high (chunkSize id low high numThreads) t).low ∧
    (threadArgs2D id low high low2 high2 (chunkSize id low high numThreads) t).high1 =
      (threadArgs1D id low high (chunkSize id low high numThreads) t).high := by
  obtain ⟨hc1, -, -⟩ := chunkSize_id_spec hlh hn
  generalize chunkSize id low high numThreads = c at hc1 ⊢
  have e : (t + 1) * c = t * c + c := by ring
  refine ⟨rfl, ?_, ?_, ?_, ?_, ?_, rfl, rfl⟩
  · exact min_le_left _ _
  · simp only [threadArgs1D_id, e, le_min_iff]
    constructor
    · exact fun h => h.2
    · exact fun h => ⟨by omega, h⟩
  · simp only [threadArgs1D_id, e]
    intro h
    exact min_eq_right (by omega)
  · simp only [threadArgs1D_id, thread_1D_eq_interval, interval_eq_nil_iff]
  · simp only [threadArgs1D_id, min_eq_left_iff]

/-! # The claims -/

/-! ## C1: the 1D partition -/

/-- C1. Over the integers, for `low < high` and `numThreads > 0`, with
`chunkSize = (high - low + numThreads - 1) / numThreads` and worker `t` owning
the indices `i` with
`low + t * chunkSize ≤ i < min (low + (t + 1) * chunkSize) high`: an index belongs
to some worker `0 ≤ t < numThreads` exactly when it lies in `[low, high)`, two
different workers share no index, and every index of a worker is smaller than
every index of a later worker. -/
theorem partition_1D_exact (low high numThreads : Int) (hlh : low < high)
    (hn : 0 < numThreads) :
    chunkSize id low high numThreads = (high - low + numThreads - 1) / numThreads ∧
    (∀ t, threadArgs1D id low high (chunkSize id low high numThreads) t =
      { low := low + t * chunkSize id low high numThreads,
        high := min (low + (t + 1) * chunkSize id low high numThreads) high }) ∧
    (∀ i, (∃ t, 0 ≤ t ∧ t < numThreads ∧
        (threadArgs1D id low high (chunkSize id low high numThreads) t).low ≤ i ∧
        i < (threadArgs1D id low high (chunkSize id low high numThreads) t).high) ↔
      (low ≤ i ∧ i < high)) ∧
    (∀ s t i, 0 ≤ s → s < numThreads → 0 ≤ t → t < numThreads → s ≠ t →
      ¬ (((threadArgs1D id low high (chunkSize id low high numThreads) s).low ≤ i ∧
          i < (threadArgs1D id low high (chunkSize id low high numThreads) s).high) ∧
        ((threadArgs1D id low high (chunkSize id low high numThreads) t).low ≤ i ∧
          i < (threadArgs1D id low high (chunkSize id low high numThreads) t).high))) ∧
    (∀ s t i j, 0 ≤ s → s < t → t < numThreads →
      (threadArgs1D id low high (chunkSize id low high numThreads) s).low ≤ i →
      i < (threadArgs1D id low high (chunkSize id low high numThreads) s).high →
      (threadArgs1D id low high (chunkSize id low high numThreads) t).low ≤ j →
      j < (threadArgs1D id low high (chunkSize id low high numThreads) t).high → i < j) := by
  obtain ⟨hc1, hc2, -⟩ := chunkSize_id_spec hlh hn
  have hdiv : chunkSize id low high numThreads = (high - low + numThreads - 1) / numThreads := by
    rw [chunkSize_id, Int.tdiv_eq_ediv (by omega) (by omega)]
  generalize chunkSize id low high numThreads = c at hc1 hc2 hdiv ⊢
  simp only [threadArgs1D_id]
  have hord : ∀ s t i j : Int, 0 ≤ s → s < t →
      low + s * c ≤ i → i < min (low + (s + 1) * c) high →
      low + t * c ≤ j → j < min (low + (t + 1) * c) high → i < j := by
    intro s t i j _ hst _ hi hj _
    have h1 : (s + 1) * c ≤ t * c := mul_le_mul_of_nonneg_right (by omega) (by omega)
    have h2 := lt_of_lt_of_le hi (min_le_left _ _)
    omega
  refine ⟨hdiv, fun _ => trivial, ?_, ?_, ?_⟩
  · intro i
    constructor
    · rintro ⟨t, ht0, -, h1, h2⟩
      have h3 : 0 ≤ t * c := mul_nonneg ht0 (by omega)
      have h4 := lt_of_lt_of_le h2 (min_le_right _ _)
      omega
    · rintro ⟨h1, h2⟩
      have e1 := Int.ediv_add_emod (i - low) c
      have e2 := Int.emod_lt_of_pos (i - low) (by omega : 0 < c)
      have e3 := Int.emod_nonneg (i - low) (by omega : c ≠ 0)
      have e4 : (i - low) / c * c = c * ((i - low) / c) := mul_comm _ _
      have e5 : ((i - low) / c + 1) * c = c * ((i - low) / c) + c := by ring
      have h0 : 0 ≤ (i - low) / c := Int.ediv_nonneg (by omega) (by omega)
      refine ⟨(i - low) / c, h0, ?_, by omega, lt_min (by omega) h2⟩
      by_contra hge
      have h5 : numThreads * c ≤ (i - low) / c * c :=
        mul_le_mul_of_nonneg_right (by omega) (by omega)
      omega
  · intro s t i _ _ _ _ hst h
    rcases lt_or_gt_of_ne hst with hlt | hlt
    · exact lt_irrefl i (hord s t i i (by omega) hlt h.1.1 h.1.2 h.2.1 h.2.2)
    · exact lt_irrefl i (hord t s i i (by omega) hlt h.2.1 h.2.2 h.1.1 h.1.2)
  · intro s t i j hs hst _ h1 h2 h3 h4
    exact hord s t i j hs hst h1 h2 h3 h4

/-- C1: scenario A of the specification, `parallel_for(0, 10, task, 3)`: chunks of
four indices, sub-ranges `[0,4)`, `[4,8)`, `[8,10)`, covering `[0, 10)`. -/
theorem partition_1D_exact_witness :
    chunkSize id 0 10 3 = 4 ∧
    threadArgs1D id 0 10 (chunkSize id 0 10 3) 0 = ⟨0, 4⟩ ∧
    threadArgs1D id 0 10 (chunkSize id 0 10 3) 1 = ⟨4, 8⟩ ∧
    threadArgs1D id 0 10 (chunkSize id 0 10 3) 2 = ⟨8, 10⟩ ∧
    (∀ i, (∃ t, 0 ≤ t ∧ t < 3 ∧
        (threadArgs1D id 0 10 (chunkSize id 0 10 3) t).low ≤ i ∧
        i < (threadArgs1D id 0 10 (chunkSize id 0 10 3) t).high) ↔ (0 ≤ i ∧ i < 10)) :=
  ⟨by decide, by decide, by decide, by decide,
    (partition_1D_exact 0 10 3 (by decide) (by decide)).2.2.1⟩

/-! ## C2: lambda calls of a 1D call -/

/-- C2. Over the integers, for `low < high`, `numThreads > 0` and creations that
all succeed: the started workers are workers `0 … numThreads-1`, worker `t`
running `thread_1D` over its sub-range; the list of lambda arguments of each worker
is strictly increasing; the lists concatenated in worker order are
`low, low+1, …, high-1`, the calls of the single loop `thread_1D low high`; so
each index of `[low, high)` is passed exactly once and no other index is. -/
theorem parallel_for_1D_invocations (pthread_create pthread_join : Int → Int)
    (low high numThreads : Int) (hlh : low < high) (hn : 0 < numThreads)
    (hc : ∀ t, 0 ≤ t → t < numThreads → pthread_create t = 0) :
    workerRuns1D (parallel_for_1D id pthread_create pthread_join low high numThreads) =
      ((interval 0 numThreads).map fun t =>
        thread_1D (threadArgs1D id low high (chunkSize id low high numThreads) t).low
          (threadArgs1D id low high (chunkSize id low high numThreads) t).high) ∧
    (∀ r ∈ workerRuns1D (parallel_for_1D id pthread_create pthread_join low high numThreads),
      r.Pairwise (· < ·)) ∧
    (workerRuns1D (parallel_for_1D id pthread_create pthread_join low high
      numThreads)).flatten = interval low high ∧
    (workerRuns1D (parallel_for_1D id pthread_create pthread_join low high
      numThreads)).flatten = thread_1D low high ∧
    (∀ i, (workerRuns1D (parallel_for_1D id pthread_create pthread_join low high
      numThreads)).flatten.count i = if low ≤ i ∧ i < high then 1 else 0) := by
  have hruns := workerRuns1D_all_ok pthread_create pthread_join low high numThreads hlh hn hc
  obtain ⟨hc1, hc2, -⟩ := chunkSize_id_spec hlh hn
  have hflat : (workerRuns1D (parallel_for_1D id pthread_create pthread_join low high
      numThreads)).flatten = interval low high := by
    rw [hruns, flatten_chunks_int interval (fun a b h => interval_of_ge h)
      (fun a b c h1 h2 => interval_append h1 h2) low high _ (by omega) numThreads (by omega),
      min_eq_right (by omega)]
  refine ⟨?_, ?_, hflat, ?_, ?_⟩
  · rw [hruns]
    simp only [thread_1D_eq_interval, threadArgs1D_id]
  · intro r hr
    rw [hruns, List.mem_map] at hr
    obtain ⟨t, -, rfl⟩ := hr
    exact interval_pairwise _ _
  · rw [hflat, thread_1D_eq_interval]
  · intro i
    rw [hflat, count_interval]

/-- C2: scenario A of the specification, `parallel_for(0, 10, task, 3)`: the three
workers call the lambda on `0 … 3`, `4 … 7` and `8, 9`. -/
theorem parallel_for_1D_invocations_witness :
    workerRuns1D (parallel_for_1D id (fun _ => 0) (fun _ => 0) 0 10 3) =
      [[0, 1, 2, 3], [4, 5, 6, 7], [8, 9]] ∧
    (workerRuns1D (parallel_for_1D id (fun _ => 0) (fun _ => 0) 0 10 3)).flatten =
      [0, 1, 2, 3, 4, 5, 6, 7, 8, 9] := by
  have h := parallel_for_1D_invocations (fun _ => 0) (fun _ => 0) 0 10 3 (by decide)
    (by decide) (fun _ _ _ => rfl)
  constructor
  · rw [h.1]
    simp only [thread_1D_eq_interval]
    decide
  · rw [h.2.2.1]
    decide

/-! ## C3: lambda calls of a 2D call -/

/-- C3. Over the integers, for `low1 < high1`, `low2 < high2`, `numThreads > 0`
and creations that all succeed: the workers created are workers
`0 … numThreads-1`, worker `t` on the outer bounds
`[low1 + t * chunkSize1, min (low1 + (t + 1) * chunkSize1) high1)` with
`chunkSize1 = (high1 - low1 + numThreads - 1) / numThreads` and on the whole inner
range `[low2, high2)`; their `thread_2D` lists concatenated in worker order are
the pairs of `[low1, high1) × [low2, high2)` in lexicographic order, the calls of
the single nested loop; each pair of the product is passed exactly once, no other
pair is, and there are `(high1 - low1) * (high2 - low2)` calls. -/
theorem parallel_for_2D_invocations (pthread_create pthread_join : Int → Int)
    (low1 high1 low2 high2 numThreads : Int) (h1 : low1 < high1) (h2 : low2 < high2)
    (hn : 0 < numThreads) (hc : ∀ t, 0 ≤ t → t < numThreads → pthread_create t = 0) :
    chunkSize id low1 high1 numThreads = (high1 - low1 + numThreads - 1) / numThreads ∧
    (∀ t a, Event.created t a ∈
        parallel_for_2D id pthread_create pthread_join low1 high1 low2 high2 numThreads ↔
      (0 ≤ t ∧ t < numThreads ∧
        a = { low1 := low1 + t * chunkSize id low1 high1 numThreads,
              high1 := min (low1 + (t + 1) * chunkSize id low1 high1 numThreads) high1,
              low2 := low2, high2 := high2 })) ∧
    workerRuns2D (parallel_for_2D id pthread_create pthread_join low1 high1 low2 high2
        numThreads) =
      ((interval 0 numThreads).map fun t =>
        thread_2D (low1 + t * chunkSize id low1 high1 numThreads)
          (min (low1 + (t + 1) * chunkSize id low1 high1 numThreads) high1) low2 high2) ∧
    (workerRuns2D (parallel_for_2D id pthread_create pthread_join low1 high1 low2 high2
      numThreads)).flatten = grid low1 high1 low2 high2 ∧
    (workerRuns2D (parallel_for_2D id pthread_create pthread_join low1 high1 low2 high2
      numThreads)).flatten = thread_2D low1 high1 low2 high2 ∧
    (workerRuns2D (parallel_for_2D id pthread_create pthread_join low1 high1 low2 high2
      numThreads)).flatten.Nodup ∧
    (∀ i j, (i, j) ∈ (workerRuns2D (parallel_for_2D id pthread_create pthread_join low1 high1
      low2 high2 numThreads)).flatten ↔ (low1 ≤ i ∧ i < high1) ∧ (low2 ≤ j ∧ j < high2)) ∧
    (((workerRuns2D (parallel_for_2D id pthread_create pthread_join low1 high1 low2 high2
      numThreads)).flatten.length : Int) = (high1 - low1) * (high2 - low2)) := by
  have hruns := workerRuns2D_all_ok pthread_create pthread_join low1 high1 low2 high2
    numThreads h1 h2 hn hc
  obtain ⟨hc1, hc2, -⟩ := chunkSize_id_spec h1 hn
  have hflat : (workerRuns2D (parallel_for_2D id pthread_create pthread_join low1 high1 low2
      high2 numThreads)).flatten = grid low1 high1 low2 high2 := by
    rw [hruns, flatten_chunks_int (fun a b => grid a b low2 high2)
      (fun a b h => grid_of_ge low2 high2 h)
      (fun a b c h1 h2 => grid_append low2 high2 h1 h2) low1 high1 _ (by omega) numThreads
      (by omega), min_eq_right (by omega)]
  refine ⟨?_, ?_, ?_, hflat, ?_, ?_, ?_, ?_⟩
  · rw [chunkSize_id, Int.tdiv_eq_ediv (by omega) (by omega)]
  · intro t a
    rw [parallel_for_2D, if_neg (by omega)]
    obtain ⟨js, hjs, e⟩ := dispatch_created_of_all_ok
      (threadArgs2D id low1 high1 low2 high2 (chunkSize id low1 high1 numThreads))
      pthread_create pthread_join numThreads hc
    rw [e, List.mem_append, List.mem_map]
    constructor
    · rintro (⟨s, hs, he⟩ | hj)
      · rw [mem_interval] at hs
        injection he with e1 e2
        subst e1
        exact ⟨hs.1, hs.2, e2.symm⟩
      · exact absurd rfl (hjs _ hj t a)
    · rintro ⟨ht0, htn, rfl⟩
      exact Or.inl ⟨t, mem_interval.2 ⟨ht0, htn⟩, rfl⟩
  · rw [hruns]
    simp only [thread_2D_eq_grid]
  · rw [hflat, thread_2D_eq_grid]
  · rw [hflat]
    exact grid_nodup _ _ _ _
  · intro i j
    rw [hflat, mem_grid]
  · rw [hflat, length_grid]
    push_cast
    rw [Int.toNat_of_nonneg (by omega), Int.toNat_of_nonneg (by omega)]

/-- C3: scenario B of the specification, `parallel_for(0, 5, 0, 3, task, 2)`: outer
chunks `[0,3)` and `[3,5)`, the inner range `[0,3)` in both, 15 calls. -/
theorem parallel_for_2D_invocations_witness :
    chunkSize id 0 5 2 = 3 ∧
    workerRuns2D (parallel_for_2D id (fun _ => 0) (fun _ => 0) 0 5 0 3 2) =
      [[(0, 0), (0, 1), (0, 2), (1, 0), (1, 1), (1, 2), (2, 0), (2, 1), (2, 2)],
       [(3, 0), (3, 1), (3, 2), (4, 0), (4, 1), (4, 2)]] ∧
    (((workerRuns2D (parallel_for_2D id (fun _ => 0) (fun _ => 0) 0 5 0 3 2)).flatten.length
      : Int) = 15) := by
  have h := parallel_for_2D_invocations (fun _ => 0) (fun _ => 0) 0 5 0 3 2 (by decide)
    (by decide) (by decide) (fun _ _ _ => rfl)
  refine ⟨by decide, ?_, ?_⟩
  · rw [h.2.2.1]
    simp only [thread_2D_eq_grid]
    decide
  · rw [h.2.2.2.2.2.2.2]
    decide

/-! ## C4: validation -/

/-- C4. For every arithmetic, every pair of oracles and every input: the 1D call
emits the invalid-parameters diagnostic exactly when `numThreads ≤ 0` or
`low ≥ high`, the 2D call exactly when `numThreads ≤ 0` or `low1 ≥ high1` or
`low2 ≥ high2`; a rejected call does nothing but emit that diagnostic (no
creation, no join, no other diagnostic, no elapsed-time report) and no worker
calls the lambda. -/
theorem input_validation (w : Int → Int) (pthread_create pthread_join : Int → Int)
    (low high low1 high1 low2 high2 numThreads : Int) :
    (Event.invalidParams ∈ parallel_for_1D w pthread_create pthread_join low high numThreads ↔
      (numThreads ≤ 0 ∨ low ≥ high)) ∧
    ((numThreads ≤ 0 ∨ low ≥ high) →
      parallel_for_1D w pthread_create pthread_join low high numThreads =
        [Event.invalidParams] ∧
      workerRuns1D (parallel_for_1D w pthread_create pthread_join low high numThreads) = []) ∧
    (Event.invalidParams ∈
        parallel_for_2D w pthread_create pthread_join low1 high1 low2 high2 numThreads ↔
      (numThreads ≤ 0 ∨ low1 ≥ high1 ∨ low2 ≥ high2)) ∧
    ((numThreads ≤ 0 ∨ low1 ≥ high1 ∨ low2 ≥ high2) →
      parallel_for_2D w pthread_create pthread_join low1 high1 low2 high2 numThreads =
        [Event.invalidParams] ∧
      workerRuns2D (parallel_for_2D w pthread_create pthread_join low1 high1 low2 high2
        numThreads) = []) := by
  refine ⟨?_, ?_, ?_, ?_⟩
  · by_cases h : numThreads ≤ 0 ∨ low ≥ high
    · simp [parallel_for_1D, h]
    · rw [parallel_for_1D, if_neg h]
      exact iff_of_false (dispatch_no_invalid _ _ _ _) h
  · intro h
    rw [parallel_for_1D, if_pos h]
    exact ⟨rfl, rfl⟩
  · by_cases h : numThreads ≤ 0 ∨ low1 ≥ high1 ∨ low2 ≥ high2
    · simp [parallel_for_2D, h]
    · rw [parallel_for_2D, if_neg h]
      exact iff_of_false (dispatch_no_invalid _ _ _ _) h
  · intro h
    rw [parallel_for_2D, if_pos h]
    exact ⟨rfl, rfl⟩

/-- C4: `numThreads = 0` in 1D and an empty inner range in 2D, on the machine. -/
theorem input_validation_witness :
    parallel_for_1D wrap32 (fun _ => 0) (fun _ => 0) 0 10 0 = [Event.invalidParams] ∧
    parallel_for_2D wrap32 (fun _ => 0) (fun _ => 0) 0 5 3 3 2 = [Event.invalidParams] :=
  have h := input_validation wrap32 (fun _ => 0) (fun _ => 0) 0 10 0 5 3 3 0
  have g := input_validation wrap32 (fun _ => 0) (fun _ => 0) 0 10 0 5 3 3 2
  ⟨(h.2.1 (by decide)).1, (g.2.2.2 (by decide)).1⟩

/-! ## C5: failure of a creation -/

/-- C5, refuted as stated: on the machine, at the valid input
`(low, high, numThreads) = (2147483640, 2147483647, 5)` with a creation failing
first at worker 4, the sum `low + 4 * chunkSize` of worker 3 wraps, worker 3 is
started on `(2147483646, -2147483648)` and calls nothing, so index `2147483646`
of `[low, min (low + 4 * chunkSize) high)` is never passed to the lambda. -/
theorem creation_failure_1D_counterexample :
    inInt32 2147483640 ∧ inInt32 2147483647 ∧ inInt32 5 ∧
    (2147483640 : Int) < 2147483647 ∧ (0 : Int) < 5 ∧
    chunkSize wrap32 2147483640 2147483647 5 = 2 ∧
    parallel_for_1D wrap32 (fun s => if s = 4 then 11 else 0) (fun _ => 0)
        2147483640 2147483647 5 =
      [Event.created 0 ⟨2147483640, 2147483642⟩, Event.created 1 ⟨2147483642, 2147483644⟩,
       Event.created 2 ⟨2147483644, 2147483646⟩, Event.created 3 ⟨2147483646, -2147483648⟩,
       Event.createError 4 11, Event.join 0, Event.join 1, Event.join 2, Event.join 3] ∧
    (workerRuns1D (parallel_for_1D wrap32 (fun s => if s = 4 then 11 else 0) (fun _ => 0)
        2147483640 2147483647 5)).flatten =
      [2147483640, 2147483641, 2147483642, 2147483643, 2147483644, 2147483645] ∧
    ((2147483640 : Int) ≤ 2147483646 ∧
      (2147483646 : Int) < min (2147483640 + 4 * chunkSize wrap32 2147483640 2147483647 5)
        2147483647) ∧
    (2147483646 : Int) ∉
      (workerRuns1D (parallel_for_1D wrap32 (fun s => if s = 4 then 11 else 0) (fun _ => 0)
        2147483640 2147483647 5)).flatten := by
  have hlog : parallel_for_1D wrap32 (fun s => if s = 4 then 11 else 0) (fun _ => 0)
        2147483640 2147483647 5 =
      [Event.created 0 ⟨2147483640, 2147483642⟩, Event.created 1 ⟨2147483642, 2147483644⟩,
       Event.created 2 ⟨2147483644, 2147483646⟩, Event.created 3 ⟨2147483646, -2147483648⟩,
       Event.createError 4 11, Event.join 0, Event.join 1, Event.join 2, Event.join 3] := by
    rw [parallel_for_1D, if_neg (by decide),
      dispatch_create_fail _ (fun s => if s = 4 then 11 else 0) _ 5 4 (by decide) (by decide)
        (by decide) (fun s h0 h4 => if_neg (by omega))]
    decide
  have hflat : (workerRuns1D (parallel_for_1D wrap32 (fun s => if s = 4 then 11 else 0)
        (fun _ => 0) 2147483640 2147483647 5)).flatten =
      [2147483640, 2147483641, 2147483642, 2147483643, 2147483644, 2147483645] := by
    rw [hlog]
    simp only [workerRuns1D, List.filterMap_cons, List.filterMap_nil, thread_1D_eq_interval]
    decide
  refine ⟨by decide, by decide, by decide, by decide, by decide, by decide, hlog, hflat,
    by decide, ?_⟩
  rw [hflat]
  decide

/-- C5, amended. On the machine, for 32-bit `low < high`, `numThreads > 0` and a
creation failing first at worker `t` (`0 ≤ t < numThreads`): the calling thread
creates workers `0 … t-1` on their sub-ranges, emits the creation-failure
diagnostic for `t`, calls `pthread_join` on workers `0 … t-1` and does nothing
else, so the started workers are workers `0 … t-1`; and when the partitioning
does not overflow (`high - low + numThreads - 1 ≤ 2^31 - 1` and
`high + numThreads - 1 ≤ 2^31 - 1`) the lambda arguments of the started workers
are exactly the indices of `[low, min (low + t * chunkSize) high)`, once each, and
no index of the sub-range of a worker `s ≥ t` is among them. -/
theorem creation_failure_1D (pthread_create pthread_join : Int → Int)
    (low high numThreads t : Int) (hl : inInt32 low) (hh : inInt32 high)
    (hN : inInt32 numThreads) (hlh : low < high) (hn : 0 < numThreads)
    (ht0 : 0 ≤ t) (htn : t < numThreads) (hfail : pthread_create t ≠ 0)
    (hok : ∀ s, 0 ≤ s → s < t → pthread_create s = 0) :
    parallel_for_1D wrap32 pthread_create pthread_join low high numThreads =
      ((interval 0 t).map fun s =>
          Event.created s
            (threadArgs1D wrap32 low high (chunkSize wrap32 low high numThreads) s)) ++
        Event.createError t (pthread_create t) :: (interval 0 t).map Event.join ∧
    (high - low + numThreads - 1 ≤ INT_MAX → high + numThreads - 1 ≤ INT_MAX →
      chunkSize wrap32 low high numThreads = (high - low + numThreads - 1) / numThreads ∧
      workerRuns1D (parallel_for_1D wrap32 pthread_create pthread_join low high numThreads) =
        ((interval 0 t).map fun s =>
          thread_1D (low + s * chunkSize wrap32 low high numThreads)
            (min (low + (s + 1) * chunkSize wrap32 low high numThreads) high)) ∧
      (workerRuns1D (parallel_for_1D wrap32 pthread_create pthread_join low high
        numThreads)).flatten =
          interval low (min (low + t * chunkSize wrap32 low high numThreads) high) ∧
      (∀ i, (workerRuns1D (parallel_for_1D wrap32 pthread_create pthread_join low high
        numThreads)).flatten.count i =
          if low ≤ i ∧ i < min (low + t * chunkSize wrap32 low high numThreads) high
          then 1 else 0) ∧
      (∀ s i, t ≤ s → s < numThreads →
        (threadArgs1D wrap32 low high (chunkSize wrap32 low high numThreads) s).low ≤ i →
        i < (threadArgs1D wrap32 low high (chunkSize wrap32 low high numThreads) s).high →
        i ∉ (workerRuns1D (parallel_for_1D wrap32 pthread_create pthread_join low high
          numThreads)).flatten)) := by
  constructor
  · rw [parallel_for_1D, if_neg (by omega),
      dispatch_create_fail _ _ _ _ _ ht0 htn hfail hok]
  · intro hb1 hb2
    have hpf := parallel_for_1D_wrap32_eq pthread_create pthread_join hl hh hN hb1 hb2
    have hce := chunkSize_wrap32_eq hl hh hN hlh hn hb1
    obtain ⟨-, h2, h3, h4, h5⟩ := creation_failure_id pthread_create pthread_join low high
      numThreads t hlh hn ht0 htn hfail hok
    refine ⟨?_, ?_, ?_, ?_, ?_⟩
    · rw [hce, chunkSize_id, Int.tdiv_eq_ediv (by omega) (by omega)]
    · rw [hpf, hce, h2]
      rfl
    · rw [hpf, hce, h3]
    · intro i
      rw [hpf, hce, h4 i]
    · intro s i hts hsn
      rw [(threadArgs_wrap32_eq 0 0 hl hh hN hlh hn hb1 hb2 (le_trans ht0 hts) hsn).1, hpf]
      exact h5 s i hts hsn

/-- C5 (amended): scenario D of the specification, creation failing at worker 2
of 4, here over `[0, 8)` with error code `11`, on the machine: workers 0 and 1
run and are joined, the lambda is called on `0 … 3` only. -/
theorem creation_failure_1D_witness :
    parallel_for_1D wrap32 (fun s => if s = 2 then 11 else 0) (fun _ => 0) 0 8 4 =
      [Event.created 0 ⟨0, 2⟩, Event.created 1 ⟨2, 4⟩, Event.createError 2 11,
       Event.join 0, Event.join 1] ∧
    (workerRuns1D (parallel_for_1D wrap32 (fun s => if s = 2 then 11 else 0) (fun _ => 0) 0 8
      4)).flatten = [0, 1, 2, 3] := by
  have h := creation_failure_1D (fun s => if s = 2 then 11 else 0) (fun _ => 0) 0 8 4 2
    (by decide) (by decide) (by decide) (by decide) (by decide) (by decide) (by decide)
    (by decide) (fun s h0 h2 => if_neg (by omega))
  constructor
  · rw [h.1]
    decide
  · rw [(h.2 (by decide) (by decide)).2.2.1]
    decide

/-! ## C6: more workers than indices -/

/-- C6. Over the integers, for `low < high` and `numThreads ≥ high - low`:
`chunkSize` is `1`, worker `t < high - low` calls the lambda on `low + t` and on
nothing else, every worker `t ≥ high - low` calls it on nothing, and the call
is not rejected: it emits no invalid-parameter diagnostic and, when the creations
and the joins succeed, it ends with the elapsed-time report. -/
theorem more_workers_than_indices (pthread_create pthread_join : Int → Int)
    (low high numThreads : Int) (hlh : low < high) (hn : high - low ≤ numThreads) :
    chunkSize id low high numThreads = 1 ∧
    (∀ t, 0 ≤ t → t < high - low →
      threadArgs1D id low high (chunkSize id low high numThreads) t =
        { low := low + t, high := low + t + 1 } ∧
      thread_1D (threadArgs1D id low high (chunkSize id low high numThreads) t).low
        (threadArgs1D id low high (chunkSize id low high numThreads) t).high = [low + t]) ∧
    (∀ t, high - low ≤ t → t < numThreads →
      thread_1D (threadArgs1D id low high (chunkSize id low high numThreads) t).low
        (threadArgs1D id low high (chunkSize id low high numThreads) t).high = []) ∧
    Event.invalidParams ∉
      parallel_for_1D id pthread_create pthread_join low high numThreads ∧
    ((∀ t, 0 ≤ t → t < numThreads → pthread_create t = 0) →
      (∀ t, 0 ≤ t → t < numThreads → pthread_join t = 0) →
      parallel_for_1D id pthread_create pthread_join low high numThreads =
        ((interval 0 numThreads).map fun t =>
            Event.created t (threadArgs1D id low high 1 t)) ++
          (interval 0 numThreads).map Event.join ++ [Event.execTime]) := by
  have hn0 : 0 < numThreads := by omega
  obtain ⟨hc1, -, hc3⟩ := chunkSize_id_spec hlh hn0
  have hc : chunkSize id low high numThreads = 1 := by
    by_contra hne
    have h1 : numThreads * 1 ≤ numThreads * (chunkSize id low high numThreads - 1) :=
      mul_le_mul_of_nonneg_left (by omega) (by omega)
    omega
  have hvalid : ¬ (numThreads ≤ 0 ∨ low ≥ high) := by omega
  refine ⟨hc, ?_, ?_, ?_, ?_⟩
  · intro t _ ht
    have e : threadArgs1D id low high (chunkSize id low high numThreads) t =
        { low := low + t, high := low + t + 1 } := by
      rw [hc, threadArgs1D_id, mul_one, mul_one, min_eq_left (by omega)]
      congr 1
      omega
    rw [e, thread_1D_eq_interval]
    exact ⟨rfl, interval_single _⟩
  · intro t ht _
    simp only [hc, threadArgs1D_id, thread_1D_eq_interval, interval_eq_nil_iff, mul_one]
    exact le_trans (min_le_right _ _) (by omega)
  · rw [parallel_for_1D, if_neg hvalid]
    exact dispatch_no_invalid _ _ _ _
  · intro hcr hjn
    rw [parallel_for_1D, if_neg hvalid, hc, dispatch_all_ok _ _ _ _ hcr hjn]

/-- C6: scenario C of the specification, `numThreads = 5` over `[0, 3)`: workers
0, 1, 2 get one index each, workers 3 and 4 none, and the call is not rejected. -/
theorem more_workers_than_indices_witness :
    chunkSize id 0 3 5 = 1 ∧
    thread_1D (threadArgs1D id 0 3 (chunkSize id 0 3 5) 2).low
      (threadArgs1D id 0 3 (chunkSize id 0 3 5) 2).high = [0 + 2] ∧
    thread_1D (threadArgs1D id 0 3 (chunkSize id 0 3 5) 3).low
      (threadArgs1D id 0 3 (chunkSize id 0 3 5) 3).high = [] ∧
    thread_1D (threadArgs1D id 0 3 (chunkSize id 0 3 5) 4).low
      (threadArgs1D id 0 3 (chunkSize id 0 3 5) 4).high = [] ∧
    Event.invalidParams ∉ parallel_for_1D id (fun _ => 0) (fun _ => 0) 0 3 5 :=
  have h := more_workers_than_indices (fun _ => 0) (fun _ => 0) 0 3 5 (by decide) (by decide)
  ⟨h.1, (h.2.1 2 (by decide) (by decide)).2, h.2.2.1 3 (by decide) (by decide),
    h.2.2.1 4 (by decide) (by decide), h.2.2.2.1⟩

/-! ## C7: shape of the sub-ranges -/

/-- C7, refuted as stated: for `(low, high, numThreads) = (0, 3, 5)`, where no
operation overflows, the last worker is given the inverted bounds `(4, 3)`, on
the machine as over the integers, and the upper bound `3` of worker 3 is not the
lower bound `4` of worker 4. -/
theorem subrange_shape_counterexample :
    (0 : Int) < 3 ∧ (0 : Int) < 5 ∧
    threadArgs1D id 0 3 (chunkSize id 0 3 5) 4 = { low := 4, high := 3 } ∧
    ¬ ((threadArgs1D id 0 3 (chunkSize id 0 3 5) 4).low ≤
        (threadArgs1D id 0 3 (chunkSize id 0 3 5) 4).high) ∧
    threadArgs1D id 0 3 (chunkSize id 0 3 5) 3 = { low := 3, high := 3 } ∧
    (3 : Int) < 5 - 1 ∧
    (threadArgs1D id 0 3 (chunkSize id 0 3 5) 3).high ≠
      (threadArgs1D id 0 3 (chunkSize id 0 3 5) 4).low ∧
    (threadArgs2D id 0 3 0 1 (chunkSize id 0 3 5) 4).high1 <
      (threadArgs2D id 0 3 0 1 (chunkSize id 0 3 5) 4).low1 ∧
    (∀ v ∈ partitionOps 0 3 5 4, inInt32 v) ∧
    threadArgs1D wrap32 0 3 (chunkSize wrap32 0 3 5) 4 = { low := 4, high := 3 } ∧
    ¬ ((threadArgs1D wrap32 0 3 (chunkSize wrap32 0 3 5) 4).low ≤
        (threadArgs1D wrap32 0 3 (chunkSize wrap32 0 3 5) 4).high) ∧
    threadArgs1D wrap32 0 3 (chunkSize wrap32 0 3 5) 3 = { low := 3, high := 3 } ∧
    (threadArgs1D wrap32 0 3 (chunkSize wrap32 0 3 5) 3).high ≠
      (threadArgs1D wrap32 0 3 (chunkSize wrap32 0 3 5) 4).low ∧
    (threadArgs2D wrap32 0 3 0 1 (chunkSize wrap32 0 3 5) 4).high1 <
      (threadArgs2D wrap32 0 3 0 1 (chunkSize wrap32 0 3 5) 4).low1 := by
  decide

/-- C7, amended. On the machine, for 32-bit `low < high` and `numThreads > 0` whose
partitioning does not overflow (`high - low + numThreads - 1 ≤ 2^31 - 1` and
`high + numThreads - 1 ≤ 2^31 - 1`) and every worker `0 ≤ t < numThreads`, with
`(lo_t, hi_t)` the bounds the code gives to worker `t` (1D, and the outer bounds
in 2D): `lo_t = low + t * chunkSize` and `hi_t = min (low + (t + 1) * chunkSize) high`
as integers; `lo_t ≤ hi_t` holds exactly when `lo_t ≤ high`, and `hi_t = high`
otherwise; the worker calls the lambda on nothing exactly when `hi_t ≤ lo_t`; and
when worker `t + 1` exists, with `lo_next` its lower bound, `hi_t = min lo_next high`,
hence `hi_t ≤ lo_next`, and `hi_t = lo_next` holds exactly when `lo_next ≤ high`. -/
theorem subrange_shape (low high numThreads low2 high2 t : Int)
    (hl : inInt32 low) (hh : inInt32 high) (hN : inInt32 numThreads)
    (hlh : low < high) (hn : 0 < numThreads)
    (hb1 : high - low + numThreads - 1 ≤ INT_MAX) (hb2 : high + numThreads - 1 ≤ INT_MAX)
    (ht0 : 0 ≤ t) (htn : t < numThreads) :
    threadArgs1D wrap32 low high (chunkSize wrap32 low high numThreads) t =
      { low := low + t * chunkSize wrap32 low high numThreads,
        high := min (low + (t + 1) * chunkSize wrap32 low high numThreads) high } ∧
    ((threadArgs1D wrap32 low high (chunkSize wrap32 low high numThreads) t).low ≤
        (threadArgs1D wrap32 low high (chunkSize wrap32 low high numThreads) t).high ↔
      (threadArgs1D wrap32 low high (chunkSize wrap32 low high numThreads) t).low ≤ high) ∧
    (high < (threadArgs1D wrap32 low high (chunkSize wrap32 low high numThreads) t).low →
      (threadArgs1D wrap32 low high (chunkSize wrap32 low high numThreads) t).high = high) ∧
    (thread_1D (threadArgs1D wrap32 low high (chunkSize wrap32 low high numThreads) t).low
        (threadArgs1D wrap32 low high (chunkSize wrap32 low high numThreads) t).high = [] ↔
      (threadArgs1D wrap32 low high (chunkSize wrap32 low high numThreads) t).high ≤
        (threadArgs1D wrap32 low high (chunkSize wrap32 low high numThreads) t).low) ∧
    (t + 1 < numThreads →
      (threadArgs1D wrap32 low high (chunkSize wrap32 low high numThreads) t).high =
        min (threadArgs1D wrap32 low high (chunkSize wrap32 low high numThreads) (t + 1)).low
          high ∧
      (threadArgs1D wrap32 low high (chunkSize wrap32 low high numThreads) t).high ≤
        (threadArgs1D wrap32 low high (chunkSize wrap32 low high numThreads) (t + 1)).low ∧
      ((threadArgs1D wrap32 low high (chunkSize wrap32 low high numThreads) t).high =
          (threadArgs1D wrap32 low high (chunkSize wrap32 low high numThreads) (t + 1)).low ↔
        (threadArgs1D wrap32 low high (chunkSize wrap32 low high numThreads) (t + 1)).low ≤
          high)) ∧
    (threadArgs2D wrap32 low high low2 high2 (chunkSize wrap32 low high numThreads) t).low1 =
      (threadArgs1D wrap32 low high (chunkSize wrap32 low high numThreads) t).low ∧
    (threadArgs2D wrap32 low high low2 high2 (chunkSize wrap32 low high numThreads) t).high1 =
      (threadArgs1D wrap32 low high (chunkSize wrap32 low high numThreads) t).high := by
  have hce := chunkSize_wrap32_eq hl hh hN hlh hn hb1
  have hA := (threadArgs_wrap32_eq low2 high2 hl hh hN hlh hn hb1 hb2 ht0 htn).1
  obtain ⟨g1, g2, g3, g4, g5, g6, -, -⟩ := subrange_shape_id low high numThreads hlh hn low2 high2 t
  refine ⟨?_, ?_, ?_, ?_, ?_, rfl, rfl⟩
  · rw [hA, hce]
    rfl
  · rw [hA]
    exact g3
  · rw [hA]
    exact g4
  · rw [hA]
    exact g5
  · intro ht1
    rw [hA, (threadArgs_wrap32_eq low2 high2 hl hh hN hlh hn hb1 hb2 (by omega) ht1).1]
    exact ⟨g1, g2, g6⟩

/-- C7 (amended): `(low, high, numThreads) = (0, 3, 5)` at worker 3 on the machine,
whose bounds are `(3, 3)`: it calls nothing, and its upper bound `3` is `min 4 3`,
below the lower bound `4` of worker 4. -/
theorem subrange_shape_witness :
    threadArgs1D wrap32 0 3 (chunkSize wrap32 0 3 5) 3 = { low := 3, high := 3 } ∧
    (thread_1D (threadArgs1D wrap32 0 3 (chunkSize wrap32 0 3 5) 3).low
        (threadArgs1D wrap32 0 3 (chunkSize wrap32 0 3 5) 3).high = [] ↔
      (threadArgs1D wrap32 0 3 (chunkSize wrap32 0 3 5) 3).high ≤
        (threadArgs1D wrap32 0 3 (chunkSize wrap32 0 3 5) 3).low) ∧
    (threadArgs1D wrap32 0 3 (chunkSize wrap32 0 3 5) 3).high =
      min (threadArgs1D wrap32 0 3 (chunkSize wrap32 0 3 5) (3 + 1)).low 3 ∧
    (threadArgs1D wrap32 0 3 (chunkSize wrap32 0 3 5) 3).high ≤
      (threadArgs1D wrap32 0 3 (chunkSize wrap32 0 3 5) (3 + 1)).low :=
  have h := subrange_shape 0 3 5 0 1 3 (by decide) (by decide) (by decide) (by decide)
    (by decide) (by decide) (by decide) (by decide) (by decide)
  ⟨by decide, h.2.2.2.1, (h.2.2.2.2.1 (by decide)).1, (h.2.2.2.2.1 (by decide)).2.1⟩

/-! ## C8: chunk size and ceiling -/

/-- C8, refuted as stated: on the 32-bit inputs `(low, high, numThreads) =
(0, 2147483647, 2)` the code computes `chunkSize = -1073741824`, while the
ceiling of `2147483647 / 2` is `1073741824`. -/
theorem chunkSize_ceiling_counterexample :
    inInt32 0 ∧ inInt32 2147483647 ∧ inInt32 2 ∧ (0 : Int) < 2147483647 ∧ (0 : Int) < 2 ∧
    chunkSize wrap32 0 2147483647 2 = -1073741824 ∧
    ⌈((2147483647 - 0 : Int) : ℚ) / ((2 : Int) : ℚ)⌉ = 1073741824 ∧
    chunkSize wrap32 0 2147483647 2 ≠ ⌈((2147483647 - 0 : Int) : ℚ) / ((2 : Int) : ℚ)⌉ := by
  have hc : chunkSize wrap32 0 2147483647 2 = -1073741824 := by decide
  have hq : ⌈((2147483647 - 0 : Int) : ℚ) / ((2 : Int) : ℚ)⌉ = 1073741824 := by
    rw [Int.ceil_eq_iff]
    norm_num
  refine ⟨by decide, by decide, by decide, by decide, by decide, hc, hq, ?_⟩
  rw [hc, hq]
  decide

/-- C8, amended. For 32-bit `low < high` and `numThreads > 0`, the `chunkSize` the
code computes with wraparound (1D, and `chunkSize1` in 2D, the same expression)
equals the ceiling of `(high - low) / numThreads` exactly when
`high - low + numThreads - 1 ≤ 2^31 - 1`; beyond that bound it is `≤ 0`. -/
theorem chunkSize_ceiling (low high numThreads : Int) (hl : inInt32 low) (hh : inInt32 high)
    (hN : inInt32 numThreads) (hlh : low < high) (hn : 0 < numThreads) :
    (chunkSize wrap32 low high numThreads =
        ⌈((high - low : Int) : ℚ) / ((numThreads : Int) : ℚ)⌉ ↔
      high - low + numThreads - 1 ≤ INT_MAX) ∧
    (INT_MAX < high - low + numThreads - 1 → chunkSize wrap32 low high numThreads ≤ 0) := by
  have hceil := ceil_eq_chunkSize_id hlh hn
  have hpos := (chunkSize_id_spec hlh hn).1
  refine ⟨⟨fun h => ?_, fun h => ?_⟩, chunkSize_wrap32_nonpos hl hh hN hlh hn⟩
  · by_contra hb
    have := chunkSize_wrap32_nonpos hl hh hN hlh hn (by omega)
    omega
  · rw [hceil, chunkSize_wrap32_eq hl hh hN hlh hn h]

/-- C8 (amended): scenario A, `(0, 10, 3)`, where the bound holds. -/
theorem chunkSize_ceiling_witness :
    chunkSize wrap32 0 10 3 = ⌈((10 - 0 : Int) : ℚ) / ((3 : Int) : ℚ)⌉ ∧
    chunkSize wrap32 0 10 3 = 4 :=
  ⟨(chunkSize_ceiling 0 10 3 (by decide) (by decide) (by decide) (by decide)
      (by decide)).1.2 (by decide), by decide⟩

/-! ## C9: failure of a join -/

/-- C9. For a valid call (1D or 2D, any arithmetic) whose creations all succeed:
if the join of worker `t` is the first to fail, the calling thread creates the
`numThreads` workers, calls `pthread_join` on workers `0 … t` once each, emits the
join-failure diagnostic for `t` and does nothing else, so there is no join of a
later worker, no second join of `t` and no elapsed-time report; if no join
fails, it calls `pthread_join` on workers `0 … numThreads-1` once each and then
emits the elapsed-time report. -/
theorem join_failure (w : Int → Int) (pthread_create pthread_join : Int → Int)
    (low high low1 high1 low2 high2 numThreads : Int)
    (hlh : low < high) (h1 : low1 < high1) (h2 : low2 < high2) (hn : 0 < numThreads)
    (hc : ∀ s, 0 ≤ s → s < numThreads → pthread_create s = 0) :
    (∀ t, 0 ≤ t → t < numThreads → pthread_join t ≠ 0 →
      (∀ s, 0 ≤ s → s < t → pthread_join s = 0) →
      parallel_for_1D w pthread_create pthread_join low high numThreads =
        ((interval 0 numThreads).map fun s =>
            Event.created s (threadArgs1D w low high (chunkSize w low high numThreads) s)) ++
          ((interval 0 t).map Event.join ++
            [Event.join t, Event.joinError t (pthread_join t)]) ∧
      parallel_for_2D w pthread_create pthread_join low1 high1 low2 high2 numThreads =
        ((interval 0 numThreads).map fun s =>
            Event.created s
              (threadArgs2D w low1 high1 low2 high2 (chunkSize w low1 high1 numThreads) s)) ++
          ((interval 0 t).map Event.join ++
            [Event.join t, Event.joinError t (pthread_join t)]) ∧
      Event.execTime ∉ parallel_for_1D w pthread_create pthread_join low high numThreads ∧
      Event.execTime ∉
        parallel_for_2D w pthread_create pthread_join low1 high1 low2 high2 numThreads ∧
      (∀ s, (parallel_for_1D w pthread_create pthread_join low high numThreads).count
          (Event.join s) = if 0 ≤ s ∧ s ≤ t then 1 else 0) ∧
      (∀ s, (parallel_for_2D w pthread_create pthread_join low1 high1 low2 high2
          numThreads).count (Event.join s) = if 0 ≤ s ∧ s ≤ t then 1 else 0)) ∧
    ((∀ s, 0 ≤ s → s < numThreads → pthread_join s = 0) →
      parallel_for_1D w pthread_create pthread_join low high numThreads =
        ((interval 0 numThreads).map fun s =>
            Event.created s (threadArgs1D w low high (chunkSize w low high numThreads) s)) ++
          (interval 0 numThreads).map Event.join ++ [Event.execTime] ∧
      parallel_for_2D w pthread_create pthread_join low1 high1 low2 high2 numThreads =
        ((interval 0 numThreads).map fun s =>
            Event.created s
              (threadArgs2D w low1 high1 low2 high2 (chunkSize w low1 high1 numThreads) s)) ++
          (interval 0 numThreads).map Event.join ++ [Event.execTime]) := by
  have v1 : ¬ (numThreads ≤ 0 ∨ low ≥ high) := by omega
  have v2 : ¬ (numThreads ≤ 0 ∨ low1 ≥ high1 ∨ low2 ≥ high2) := by omega
  simp only [parallel_for_1D, parallel_for_2D, if_neg v1, if_neg v2]
  constructor
  · intro t ht0 htn hfail hok
    rw [dispatch_join_fail (threadArgs1D w low high (chunkSize w low high numThreads))
        pthread_create pthread_join numThreads t hc ht0 htn hfail hok,
      dispatch_join_fail (threadArgs2D w low1 high1 low2 high2 (chunkSize w low1 high1
        numThreads)) pthread_create pthread_join numThreads t hc ht0 htn hfail hok]
    exact ⟨rfl, rfl, by simp, by simp, fun s => count_join_log _ _ _ _ _ ht0,
      fun s => count_join_log _ _ _ _ _ ht0⟩
  · intro hj
    exact ⟨dispatch_all_ok _ _ _ _ hc hj, dispatch_all_ok _ _ _ _ hc hj⟩

/-- C9: three workers over `[0, 9)`, once with the join of worker 1 failing with
error code `22`, once with every join succeeding. -/
theorem join_failure_witness :
    parallel_for_1D id (fun _ => 0) (fun s => if s = 1 then 22 else 0) 0 9 3 =
      [Event.created 0 ⟨0, 3⟩, Event.created 1 ⟨3, 6⟩, Event.created 2 ⟨6, 9⟩,
       Event.join 0, Event.join 1, Event.joinError 1 22] ∧
    parallel_for_2D id (fun _ => 0) (fun _ => 0) 0 5 0 3 3 =
      [Event.created 0 ⟨0, 2, 0, 3⟩, Event.created 1 ⟨2, 4, 0, 3⟩,
       Event.created 2 ⟨4, 5, 0, 3⟩, Event.join 0, Event.join 1, Event.join 2,
       Event.execTime] := by
  have h := join_failure id (fun _ => 0) (fun s => if s = 1 then 22 else 0) 0 9 0 5 0 3 3
    (by decide) (by decide) (by decide) (by decide) (fun _ _ _ => rfl)
  have g := join_failure id (fun _ => 0) (fun _ => 0) 0 9 0 5 0 3 3
    (by decide) (by decide) (by decide) (by decide) (fun _ _ _ => rfl)
  constructor
  · rw [(h.1 1 (by decide) (by decide) (by decide) (fun s h0 h1 => if_neg (by omega))).1]
    decide
  · rw [(g.2 (fun _ _ _ => rfl)).2]
    decide

/-! ## C10: bounds for overflow-free partitioning -/

/-- C10, refuted as stated: `(low, high, numThreads) = (0, 2147483647, 1)` meets
both bounds, yet evaluating `range + numThreads - 1` first forms
`range + numThreads = 2147483648`, which is not a 32-bit value, and then
decrements the wrapped sum `-2147483648`. -/
theorem overflow_bound_counterexample :
    inInt32 0 ∧ inInt32 2147483647 ∧ inInt32 1 ∧ (0 : Int) < 2147483647 ∧ (0 : Int) < 1 ∧
    (2147483647 - 0 + 1 - 1 : Int) ≤ 2147483647 ∧ (2147483647 + 1 - 1 : Int) ≤ 2147483647 ∧
    partitionOps 0 2147483647 1 0 =
      [2147483647, 2147483648, -2147483649, 2147483647, 0, 0, 1, 2147483647, 2147483647] ∧
    ¬ (∀ v ∈ partitionOps 0 2147483647 1 0, inInt32 v) := by
  decide

/-- C10, amended. For 32-bit `low < high`, `numThreads > 0` with
`high - low + numThreads - 1 ≤ 2^31 - 1` and `high + numThreads - 1 ≤ 2^31 - 1`,
and every worker `0 ≤ t < numThreads`: the integers `high - low`,
`high - low + numThreads - 1`, `chunkSize`, `t * chunkSize`, `low + t * chunkSize`,
`t + 1`, `(t + 1) * chunkSize` and `low + (t + 1) * chunkSize` are 32-bit values; they are
the exact results of the operations of the code, except that `range + numThreads - 1`
is reached through the inner sum `range + numThreads`; with wraparound the code
computes the same `chunkSize` and the same sub-range bounds (1D and 2D) as over
the integers; and no operation at all leaves the 32-bit range exactly when
`high - low + numThreads ≤ 2^31 - 1`. -/
theorem overflow_bound (low high numThreads low2 high2 t : Int)
    (hl : inInt32 low) (hh : inInt32 high) (hN : inInt32 numThreads)
    (hlh : low < high) (hn : 0 < numThreads)
    (hb1 : high - low + numThreads - 1 ≤ INT_MAX) (hb2 : high + numThreads - 1 ≤ INT_MAX)
    (ht0 : 0 ≤ t) (htn : t < numThreads) :
    (inInt32 (high - low) ∧ inInt32 (high - low + numThreads - 1) ∧
      inInt32 (chunkSize id low high numThreads) ∧
      inInt32 (t * chunkSize id low high numThreads) ∧
      inInt32 (low + t * chunkSize id low high numThreads) ∧
      inInt32 (t + 1) ∧
      inInt32 ((t + 1) * chunkSize id low high numThreads) ∧
      inInt32 (low + (t + 1) * chunkSize id low high numThreads)) ∧
    partitionOps low high numThreads t =
      [high - low, high - low + numThreads, wrap32 (high - low + numThreads) - 1,
       chunkSize id low high numThreads, t * chunkSize id low high numThreads,
       low + t * chunkSize id low high numThreads, t + 1,
       (t + 1) * chunkSize id low high numThreads,
       low + (t + 1) * chunkSize id low high numThreads] ∧
    wrap32 (wrap32 (wrap32 (high - low) + numThreads) - 1) = high - low + numThreads - 1 ∧
    chunkSize wrap32 low high numThreads = chunkSize id low high numThreads ∧
    threadArgs1D wrap32 low high (chunkSize wrap32 low high numThreads) t =
      threadArgs1D id low high (chunkSize id low high numThreads) t ∧
    threadArgs2D wrap32 low high low2 high2 (chunkSize wrap32 low high numThreads) t =
      threadArgs2D id low high low2 high2 (chunkSize id low high numThreads) t ∧
    ((∀ v ∈ partitionOps low high numThreads t, inInt32 v) ↔
      high - low + numThreads ≤ INT_MAX) := by
  obtain ⟨⟨r1, r1b, r2, r3, r4, r5, r6, r7⟩, hops⟩ :=
    partitionOps_eq hl hh hN hlh hn hb1 hb2 ht0 htn
  have hnum := (wrapped_numerator hl hh hN hlh hn).1 hb1
  have hce := chunkSize_wrap32_eq hl hh hN hlh hn hb1
  have hargs := threadArgs_wrap32_eq low2 high2 hl hh hN hlh hn hb1 hb2 ht0 htn
  refine ⟨⟨r1, r1b, r2, r3, r4, r5, r6, r7⟩, hops, hnum, hce, hargs.1, hargs.2, ?_⟩
  · rw [hops]
    constructor
    · intro h
      have h1 := h (high - low + numThreads) (by simp)
      exact h1.2
    · intro h
      have r8 : inInt32 (high - low + numThreads) := by
        unfold inInt32 INT_MIN INT_MAX at *; omega
      have r9 : inInt32 (wrap32 (high - low + numThreads) - 1) := by
        rw [wrap32_of_inInt32 r8]
        unfold inInt32 INT_MIN INT_MAX at *; omega
      intro v hv
      simp only [List.mem_cons, List.mem_singleton, List.not_mem_nil, or_false] at hv
      rcases hv with rfl | rfl | rfl | rfl | rfl | rfl | rfl | rfl | rfl <;> assumption

/-- C10 (amended): scenario A, `(0, 10, 3)`, at the last worker. -/
theorem overflow_bound_witness :
    threadArgs1D wrap32 0 10 (chunkSize wrap32 0 10 3) 2 =
      threadArgs1D id 0 10 (chunkSize id 0 10 3) 2 ∧
    ((∀ v ∈ partitionOps 0 10 3 2, inInt32 v) ↔ (10 - 0 + 3 : Int) ≤ INT_MAX) :=
  have h := overflow_bound 0 10 3 0 1 2 (by decide) (by decide) (by decide) (by decide)
    (by decide) (by decide) (by decide) (by decide) (by decide)
  ⟨h.2.2.2.2.1, h.2.2.2.2.2.2⟩

end SimpleMultithreader
